import Mathlib

set_option maxRecDepth 8000

/-!
Shallow embedding of the chip8 interpreter (src/main.rs, src/gfx.rs).

Machine words are modelled as `Nat` with explicit truncation where the Rust
code performs fixed-width arithmetic (`% 256` for `u8`, `% 65536` for `u16`).
The fixed-size Rust arrays `[u8; 4096]` (memory), `[u8; 2048]` (framebuffer)
and `[u8; 16]` (registers) are modelled as total functions `Nat → Nat`
together with the explicit size constants 4096, 2048 and 16; every indexed
access of the Rust code goes through `readMem`/`writeMem` with the array's
size, so that an out-of-bounds index is a Rust panic, modelled `none`.
`Err(e)` from the executor is modelled as `some (c, some e)` where `c` is
the machine state at the moment of the early return (Rust mutates `self` in
place, so partial effects made before an `Err` persist); `Ok(())` is
`some (c, none)`.
-/

namespace Chip8

/-- Exceptions of the interpreter, mirroring `enum ChipException` in main.rs. -/
inductive ChipException where
  | InvalidRegister
  | ReturnOutsideSubroutine
  | IllegalInstruction
  | InvalidFontCodePoint
  | DrawingOutOfBounds (offset : Nat)
  | WaitForKey (register : Nat)
  | SkipIfPressed (register : Nat)
  | SkipIfNotPressed (register : Nat)
deriving DecidableEq, Repr

/-- Machine state, mirroring `struct Chip` in main.rs: `memory` is the 4096
byte array, `video_memory` the 32*64 = 2048 cell framebuffer, `data_regs`
the 16 registers V0-VF, `stack` the `Vec<u16>` call stack (top first). -/
structure Chip where
  memory : Nat → Nat
  ip : Nat
  video_memory : Nat → Nat
  stack : List Nat
  data_regs : Nat → Nat
  addr_reg : Nat
  delay_timer : Nat
  sound_timer : Nat

/-- Size of the Rust array `memory: Box<[u8; 4096]>`. -/
def MEM_SIZE : Nat := 4096

/-- Size of the Rust array `video_memory: Box<[u8; 32*64]>`. -/
def VIDEO_SIZE : Nat := 2048

/-- Mirrors `u16_from_nibbles_3` in main.rs: `(n1 << 8) + (n2 << 4) + n3`. -/
def u16_from_nibbles_3 (n1 n2 n3 : Nat) : Nat :=
  n1 * 256 + n2 * 16 + n3

/-- Mirrors `u8_from_nibbles_2` in main.rs: `(n2 << 4) + n3`. -/
def u8_from_nibbles_2 (n2 n3 : Nat) : Nat :=
  n2 * 16 + n3

/-- Mirrors `binary_coded_decimal` in main.rs. -/
def binary_coded_decimal (value : Nat) : Nat × Nat × Nat :=
  (value / 100, value / 10 - value / 100 * 10, value - value / 10 * 10)

/-- The `FONT_DATA` constant of main.rs (80 bytes, loaded at 0x00). -/
def FONT_DATA : List Nat :=
  [0xF0, 0x90, 0x90, 0x90, 0xF0,
   0x20, 0x60, 0x20, 0x20, 0x70,
   0xF0, 0x10, 0xF0, 0x80, 0xF0,
   0xF0, 0x10, 0xF0, 0x10, 0xF0,
   0x90, 0x90, 0xF0, 0x10, 0x10,
   0xF0, 0x80, 0xF0, 0x10, 0xF0,
   0xF0, 0x80, 0xF0, 0x90, 0xF0,
   0xF0, 0x10, 0x20, 0x40, 0x40,
   0xF0, 0x90, 0xF0, 0x90, 0xF0,
   0xF0, 0x90, 0xF0, 0x10, 0xF0,
   0xF0, 0x90, 0xF0, 0x90, 0x90,
   0xE0, 0x90, 0xE0, 0x90, 0xE0,
   0xF0, 0x80, 0x80, 0x80, 0xF0,
   0xE0, 0x90, 0x90, 0x90, 0xE0,
   0xF0, 0x80, 0xF0, 0x80, 0xF0,
   0xF0, 0x80, 0xF0, 0x80, 0x80]

/-- The `LOAD_ADDR` constant of main.rs. -/
def LOAD_ADDR : Nat := 0x200

/-- Mirrors `impl Default for Chip`: zeroed memory with `FONT_DATA` copied
to the first 80 bytes, `ip` at the load address. -/
def Chip.default : Chip :=
  { memory := fun i => if i < 80 then FONT_DATA.getD i 0 else 0
    ip := LOAD_ADDR
    video_memory := fun _ => 0
    stack := []
    data_regs := fun _ => 0
    addr_reg := 0
    delay_timer := 0
    sound_timer := 0 }

/-- Pointwise update `m[i] = v` of an array modelled as a function. -/
def upd (m : Nat → Nat) (i v : Nat) : Nat → Nat :=
  fun j => if j = i then v else m j

/-- Read of `m[i]` on a Rust array of `size` elements: the value when `i`
is in bounds, a panic (modelled `none`) otherwise. -/
def readMem (size : Nat) (m : Nat → Nat) (i : Nat) : Option Nat :=
  if i < size then some (m i) else none

/-- Write `m[i] = v` on a Rust array of `size` elements: the updated array
when `i` is in bounds, a panic (modelled `none`) otherwise. -/
def writeMem (size : Nat) (m : Nat → Nat) (i v : Nat) : Option (Nat → Nat) :=
  if i < size then some (upd m i v) else none

/-- Inner loop of the draw arm (`for col in 0..8` in main.rs), over the list
of remaining column indices.  On a cell offset strictly beyond
`self.video_memory.len()` = 2048 the Rust code returns
`Err(DrawingOutOfBounds)`; that early exit is modelled as
`.error (offset, vm)` carrying the partially updated framebuffer.  An
offset equal to 2048 passes the check and the subsequent indexing
panics (`none`). -/
def drawColsAux (pixelRow startCol rowData : Nat) :
    List Nat → (Nat → Nat) → Bool → Option (Except (Nat × (Nat → Nat)) ((Nat → Nat) × Bool))
  | [], vm, flag => some (.ok (vm, flag))
  | col :: rest, vm, flag =>
    if 0 < rowData >>> (7 - col) % 2 then
      let pixelCol := (startCol + col) % 256
      let pixelOffset := pixelRow * 64 + pixelCol
      if pixelOffset > VIDEO_SIZE then
        some (.error (pixelOffset, vm))
      else
        match readMem VIDEO_SIZE vm pixelOffset with
        | none => none
        | some v =>
          drawColsAux pixelRow startCol rowData rest
            (upd vm pixelOffset (Nat.xor v 1))
            (flag || decide (Nat.xor v 1 = 0))
    else
      drawColsAux pixelRow startCol rowData rest vm flag

/-- Outer loop of the draw arm (`for row in 0..n` in main.rs): one memory
read per row (a panic when out of bounds), then the eight columns. -/
def drawRowsAux (startRow startCol : Nat) (mem : Nat → Nat) (addr : Nat) :
    List Nat → (Nat → Nat) → Bool → Option (Except (Nat × (Nat → Nat)) ((Nat → Nat) × Bool))
  | [], vm, flag => some (.ok (vm, flag))
  | row :: rest, vm, flag =>
    match readMem MEM_SIZE mem (addr + row) with
    | none => none
    | some rowData =>
      match drawColsAux ((startRow + row) % 256) startCol rowData (List.range 8) vm flag with
      | none => none
      | some (.error e) => some (.error e)
      | some (.ok (vm', flag')) => drawRowsAux startRow startCol mem addr rest vm' flag'

/-- Loop of the `[0xF, x, 5, 5]` arm (`for i in 0..=x`): store registers into
memory at `addr_reg + i` (u16 addition), panicking on an out-of-bounds
index. -/
def storeRegsAux (regs : Nat → Nat) (addr : Nat) :
    List Nat → (Nat → Nat) → Option (Nat → Nat)
  | [], mem => some mem
  | i :: rest, mem =>
    match writeMem MEM_SIZE mem ((addr + i) % 65536) (regs i) with
    | none => none
    | some mem' => storeRegsAux regs addr rest mem'

/-- Loop of the `[0xF, x, 6, 5]` arm (`for i in 0..=x`): load registers from
memory at `addr_reg + i`, panicking on an out-of-bounds index. -/
def loadRegsAux (mem : Nat → Nat) (addr : Nat) :
    List Nat → (Nat → Nat) → Option (Nat → Nat)
  | [], regs => some regs
  | i :: rest, regs =>
    match readMem MEM_SIZE mem ((addr + i) % 65536) with
    | none => none
    | some v => loadRegsAux mem addr rest (upd regs i v)

/-- Mirrors `Chip::exec` in main.rs.  `rnd` supplies the byte drawn by
`rand::random::<u8>()` in the `[0xC, ...]` arm.  The result is `none` for a
Rust panic, `some (c, none)` for `Ok(())`, and `some (c, some e)` for
`Err(e)`, where `c` is the state at the point of return (mutations made
before an early `Err` return persist, as they do on `&mut self`).
Register indexing `data_regs[x]` appears as plain application `c.data_regs x`
because every register index the code uses is a nibble (or the literal 15)
and hence in bounds of the 16-element array. -/
def exec (rnd : Nat) (c : Chip) (instr : Nat) : Option (Chip × Option ChipException) :=
  let a := instr % 65536 / 4096
  let b := instr % 4096 / 256
  let n2 := instr % 256 / 16
  let d := instr % 16
  -- clear the screen
  if a = 0 ∧ b = 0 ∧ n2 = 14 ∧ d = 0 then
    some ({ c with video_memory := fun _ => 0 }, none)
  -- return from subroutine
  else if a = 0 ∧ b = 0 ∧ n2 = 14 ∧ d = 14 then
    match c.stack with
    | addr :: rest => some ({ c with ip := addr, stack := rest }, none)
    | [] => some (c, some .ReturnOutsideSubroutine)
  -- call (machine language) subroutine at n1n2n3; same as normal call
  else if a = 0 then
    some ({ c with stack := c.ip :: c.stack, ip := u16_from_nibbles_3 b n2 d }, none)
  -- jmp to n1n2n3
  else if a = 1 then
    some ({ c with ip := u16_from_nibbles_3 b n2 d }, none)
  -- call subroutine at n1n2n3
  else if a = 2 then
    some ({ c with stack := c.ip :: c.stack, ip := u16_from_nibbles_3 b n2 d }, none)
  -- skip the next instruction if n1n2 == regs[x]
  else if a = 3 then
    if 15 < b then some (c, some .InvalidRegister)
    else if c.data_regs b = u8_from_nibbles_2 n2 d then
      some ({ c with ip := (c.ip + 2) % 65536 }, none)
    else some (c, none)
  -- skip the next instruction if n1n2 != regs[x]
  else if a = 4 then
    if 15 < b then some (c, some .InvalidRegister)
    else if c.data_regs b ≠ u8_from_nibbles_2 n2 d then
      some ({ c with ip := (c.ip + 2) % 65536 }, none)
    else some (c, none)
  -- skip next instruction if regs[x] == regs[y]
  else if a = 5 ∧ d = 0 then
    if 15 < b ∨ 15 < n2 then some (c, some .InvalidRegister)
    else if c.data_regs b = c.data_regs n2 then
      some ({ c with ip := (c.ip + 2) % 65536 }, none)
    else some (c, none)
  -- set value of regs[x] to n1n2
  else if a = 6 then
    if 15 < b then some (c, some .InvalidRegister)
    else some ({ c with data_regs := upd c.data_regs b (u8_from_nibbles_2 n2 d) }, none)
  -- add n1n2 to regs[x] (wrapping)
  else if a = 7 then
    if 15 < b then some (c, some .InvalidRegister)
    else
      let regs1 := upd c.data_regs b ((c.data_regs b + u8_from_nibbles_2 n2 d) % 256)
      some ({ c with data_regs := regs1 }, none)
  -- set regs[x] = regs[y]
  else if a = 8 ∧ d = 0 then
    if 15 < b ∨ 15 < n2 then some (c, some .InvalidRegister)
    else some ({ c with data_regs := upd c.data_regs b (c.data_regs n2) }, none)
  -- set regs[x] = regs[x] | regs[y]
  else if a = 8 ∧ d = 1 then
    if 15 < b ∨ 15 < n2 then some (c, some .InvalidRegister)
    else
      let regs1 := upd c.data_regs b (Nat.lor (c.data_regs b) (c.data_regs n2))
      some ({ c with data_regs := regs1 }, none)
  -- set regs[x] = regs[x] & regs[y]
  else if a = 8 ∧ d = 2 then
    if 15 < b ∨ 15 < n2 then some (c, some .InvalidRegister)
    else
      let regs1 := upd c.data_regs b (Nat.land (c.data_regs b) (c.data_regs n2))
      some ({ c with data_regs := regs1 }, none)
  -- set regs[x] = regs[x] ^ regs[y]
  else if a = 8 ∧ d = 3 then
    if 15 < b ∨ 15 < n2 then some (c, some .InvalidRegister)
    else
      let regs1 := upd c.data_regs b (Nat.xor (c.data_regs b) (c.data_regs n2))
      some ({ c with data_regs := regs1 }, none)
  -- add regs[y] to regs[x]; regs[0xF] := 1 on carry else 0 (flag written first)
  else if a = 8 ∧ d = 4 then
    if 15 < b ∨ 15 < n2 then some (c, some .InvalidRegister)
    else
      let s := c.data_regs b + c.data_regs n2
      let regs1 := upd (upd c.data_regs 15 (if 255 < s then 1 else 0)) b (s % 256)
      some ({ c with data_regs := regs1 }, none)
  -- subtract regs[y] from regs[x]; regs[0xF] := 1 on borrow else 0 (flag written first)
  else if a = 8 ∧ d = 5 then
    if 15 < b ∨ 15 < n2 then some (c, some .InvalidRegister)
    else
      let rx := c.data_regs b
      let ry := c.data_regs n2
      let regs1 := upd (upd c.data_regs 15 (if rx < ry then 1 else 0)) b ((rx + 256 - ry) % 256)
      some ({ c with data_regs := regs1 }, none)
  -- regs[x] := regs[y] >> 1; then regs[0xF] := regs[y] & 1 (read after the first write)
  else if a = 8 ∧ d = 6 then
    if 15 < b ∨ 15 < n2 then some (c, some .InvalidRegister)
    else
      let regs1 := upd c.data_regs b (c.data_regs n2 / 2)
      some ({ c with data_regs := upd regs1 15 (regs1 n2 % 2) }, none)
  -- regs[x] := regs[y] - regs[x]; regs[0xF] := 1 on borrow else 0 (flag written first)
  else if a = 8 ∧ d = 7 then
    if 15 < b ∨ 15 < n2 then some (c, some .InvalidRegister)
    else
      let rx := c.data_regs b
      let ry := c.data_regs n2
      let regs1 := upd (upd c.data_regs 15 (if ry < rx then 1 else 0)) b ((ry + 256 - rx) % 256)
      some ({ c with data_regs := regs1 }, none)
  -- regs[x] := regs[y] << 1; then regs[0xF] := regs[y] >> 7 (read after the first write)
  else if a = 8 ∧ d = 14 then
    if 15 < b ∨ 15 < n2 then some (c, some .InvalidRegister)
    else
      let regs1 := upd c.data_regs b (c.data_regs n2 * 2 % 256)
      some ({ c with data_regs := upd regs1 15 (regs1 n2 / 128) }, none)
  -- skip the next instruction if regs[x] != regs[y]
  else if a = 9 ∧ d = 0 then
    if 15 < b ∨ 15 < n2 then some (c, some .InvalidRegister)
    else if c.data_regs b ≠ c.data_regs n2 then
      some ({ c with ip := (c.ip + 2) % 65536 }, none)
    else some (c, none)
  -- set the address register to n1n2n3
  else if a = 10 then
    some ({ c with addr_reg := u16_from_nibbles_3 b n2 d }, none)
  -- jump to regs[0x0] + n1n2n3
  else if a = 11 then
    some ({ c with ip := c.data_regs 0 + u16_from_nibbles_3 b n2 d }, none)
  -- generate a random u8 and apply the n1n2 mask to it
  else if a = 12 then
    if 15 < b then some (c, some .InvalidRegister)
    else
      let regs1 := upd c.data_regs b (Nat.land (rnd % 256) (u8_from_nibbles_2 n2 d))
      some ({ c with data_regs := regs1 }, none)
  -- draw sprite at (regs[x], regs[y]) with n bytes of data from memory at addr_reg
  else if a = 13 then
    let startRow := c.data_regs n2
    let startCol := c.data_regs b
    match drawRowsAux startRow startCol c.memory c.addr_reg (List.range d)
        c.video_memory false with
    | none => none
    | some (.error (off, vm')) =>
      some ({ c with video_memory := vm' }, some (.DrawingOutOfBounds off))
    | some (.ok (vm', flag)) =>
      some ({ c with video_memory := vm'
                     data_regs := upd c.data_regs 15 (if flag then 1 else 0) }, none)
  -- skip the next instruction if the key stored in regs[x] is pressed
  else if a = 14 ∧ n2 = 9 ∧ d = 14 then
    if 15 < b then some (c, some .InvalidRegister)
    else some (c, some (.SkipIfPressed b))
  -- skip the next instruction if the key stored in regs[x] is not pressed
  else if a = 14 ∧ n2 = 10 ∧ d = 1 then
    if 15 < b then some (c, some .InvalidRegister)
    else some (c, some (.SkipIfNotPressed b))
  -- store the current value of delay_timer in regs[x]
  else if a = 15 ∧ n2 = 0 ∧ d = 7 then
    if 15 < b then some (c, some .InvalidRegister)
    else some ({ c with data_regs := upd c.data_regs b c.delay_timer }, none)
  -- wait for the next keypress and store the result in regs[x]
  else if a = 15 ∧ n2 = 0 ∧ d = 10 then
    if 15 < b then some (c, some .InvalidRegister)
    else some (c, some (.WaitForKey b))
  -- set delay_timer to value of regs[x]
  else if a = 15 ∧ n2 = 1 ∧ d = 5 then
    if 15 < b then some (c, some .InvalidRegister)
    else some ({ c with delay_timer := c.data_regs b }, none)
  -- set sound_timer to value of regs[x]
  else if a = 15 ∧ n2 = 1 ∧ d = 8 then
    if 15 < b then some (c, some .InvalidRegister)
    else some ({ c with sound_timer := c.data_regs b }, none)
  -- increment addr_reg by regs[x] (wrapping u16 addition)
  else if a = 15 ∧ n2 = 1 ∧ d = 14 then
    if 15 < b then some (c, some .InvalidRegister)
    else some ({ c with addr_reg := (c.addr_reg + c.data_regs b) % 65536 }, none)
  -- set addr_reg to point to the font sprite data of value regs[x]
  else if a = 15 ∧ n2 = 2 ∧ d = 9 then
    if 15 < b then some (c, some .InvalidRegister)
    else if 15 < c.data_regs b then some (c, some .InvalidFontCodePoint)
    else some ({ c with addr_reg := c.data_regs b * 5 }, none)
  -- store the binary coded decimal of regs[x] at addr_reg (offsets 0, 1, 2)
  else if a = 15 ∧ n2 = 3 ∧ d = 3 then
    if 15 < b then some (c, some .InvalidRegister)
    else
      let bcd := binary_coded_decimal (c.data_regs b)
      match writeMem MEM_SIZE c.memory c.addr_reg bcd.1 with
      | none => none
      | some m1 =>
        match writeMem MEM_SIZE m1 ((c.addr_reg + 1) % 65536) bcd.2.1 with
        | none => none
        | some m2 =>
          match writeMem MEM_SIZE m2 ((c.addr_reg + 2) % 65536) bcd.2.2 with
          | none => none
          | some m3 => some ({ c with memory := m3 }, none)
  -- store regs[0] to regs[x] inclusive at addr_reg
  else if a = 15 ∧ n2 = 5 ∧ d = 5 then
    if 15 < b then some (c, some .InvalidRegister)
    else
      match storeRegsAux c.data_regs c.addr_reg (List.range (b + 1)) c.memory with
      | none => none
      | some m' => some ({ c with memory := m' }, none)
  -- fill regs[0] to regs[x] inclusive from memory starting at addr_reg
  else if a = 15 ∧ n2 = 6 ∧ d = 5 then
    if 15 < b then some (c, some .InvalidRegister)
    else
      match loadRegsAux c.memory c.addr_reg (List.range (b + 1)) c.data_regs with
      | none => none
      | some r' => some ({ c with data_regs := r' }, none)
  else some (c, some .IllegalInstruction)

/-- Mirrors `Chip::cycle` in main.rs: big-endian fetch of two bytes at the
instruction pointer (panicking when out of bounds), unconditional advance of
the pointer by two, then `exec`. -/
def cycle (rnd : Nat) (c : Chip) : Option (Chip × Option ChipException) :=
  match readMem MEM_SIZE c.memory c.ip, readMem MEM_SIZE c.memory (c.ip + 1) with
  | some hi, some lo => exec rnd { c with ip := (c.ip + 2) % 65536 } (hi * 256 + lo)
  | _, _ => none

/-- State mutation performed by `wait_for_key` in gfx.rs once the host has
resolved a key press to the key code `key`: store the code in the register
and advance the instruction pointer by two. -/
def wait_for_key (c : Chip) (register key : Nat) : Chip :=
  { c with data_regs := upd c.data_regs register key,
           ip := (c.ip + 2) % 65536 }

/-- Once-per-frame timer decay performed by `spawn_window` in gfx.rs:
`delay_timer = delay_timer.saturating_sub(1)` followed by
`sound_timer = delay_timer.saturating_sub(1)` (the second line reads the
already-decremented delay timer). -/
def frame_timer_decay (c : Chip) : Chip :=
  let c1 := { c with delay_timer := c.delay_timer - 1 }
  { c1 with sound_timer := c1.delay_timer - 1 }

end Chip8

namespace Chip8

/-! Concrete machine states used by the evaluation theorems below. -/

/-- The all-zero 4096-byte memory image. -/
def zmem : Nat → Nat := fun _ => 0

/-- The all-zero register file. -/
def zregs : Nat → Nat := fun _ => 0

/-- Chip about to draw the one-byte sprite 0x80 at start position
(row 32, col 0): the single set bit computes cell offset 32*64 = 2048,
exactly the framebuffer's total cell count. -/
def c1_chip : Chip :=
  { Chip.default with memory := upd zmem 0 0x80, data_regs := upd zregs 1 32 }

/-- Same as `c1_chip` but with start column 1, so the computed offset is
2049, strictly beyond the framebuffer. -/
def c1b_chip : Chip :=
  { c1_chip with data_regs := upd (upd zregs 1 32) 0 1 }

/-- C1: the spec says a computed cell offset **at or beyond** the
framebuffer's 2048 cells raises DrawingOutOfBounds{offset}.  The code's
guard is `pixel_offset > self.video_memory.len()`, so an offset of exactly
2048 passes the guard and the subsequent indexing of the 2048-cell
framebuffer panics (modelled `none`) instead of returning the typed error;
only offsets of 2049 and beyond return DrawingOutOfBounds.  This theorem
evaluates both sides of the off-by-one at the failing input (draw `D,0,1,1`
of sprite byte 0x80 from address 0 with register 1 = 32, register 0 = 0
resp. 1). -/
theorem c1_draw_offset_at_bound_panics :
    exec 0 c1_chip 0xD011 = none ∧
    (exec 0 c1b_chip 0xD011).map (fun p => p.2) =
      some (some (ChipException.DrawingOutOfBounds 2049)) :=
  ⟨rfl, rfl⟩

/-- Counterexample chip for C2: register 0 holds 1, so its least-significant
bit before a shift is 1. -/
def c2_cex_chip : Chip :=
  { Chip.default with data_regs := upd zregs 0 1 }

/-- Counterexample chip for C2 (left-shift half): register 0 holds 0x80, so
its most-significant bit before a shift is 1. -/
def c2e_cex_chip : Chip :=
  { Chip.default with data_regs := upd zregs 0 0x80 }

/-- C2 counterexample: for instruction `8,x,y,6` with x = y = 0 and
register 0 = 1 the interpreter leaves register 15 = 0 although the
least-significant bit register 0 held before the shift is 1 (the flag is
computed from register y *after* register x was overwritten, so x = y
breaks the claim); symmetrically for `8,x,y,E` with register 0 = 0x80 the
flag ends 0 although the prior most-significant bit is 1. -/
theorem c2_shift_same_register_cex :
    ((exec 0 c2_cex_chip 0x8006).map fun p => (p.1.data_regs 15, p.2)) =
      some (0, none) ∧
    c2_cex_chip.data_regs 0 % 2 = 1 ∧
    ((exec 0 c2e_cex_chip 0x800E).map fun p => (p.1.data_regs 15, p.2)) =
      some (0, none) ∧
    c2e_cex_chip.data_regs 0 / 128 = 1 :=
  ⟨rfl, rfl, rfl, rfl⟩

/-- Counterexample chip for C3: register 15 holds 1, all others 0. -/
def c3_cex_chip : Chip :=
  { Chip.default with data_regs := upd zregs 15 1 }

/-- C3 counterexample: for `8,x,y,4` with x = 15, y = 0, register 15 = 1 and
register 0 = 0, the sum 1 produces no carry, yet register 15 ends at 1:
the wrapped sum is written to register x = 15 after the carry flag, so the
claimed "register 15 = 1 iff a+b > 255" fails when x is the flag register. -/
theorem c3_add_carry_flag_register_cex :
    ((exec 0 c3_cex_chip 0x8F04).map fun p => (p.1.data_regs 15, p.2)) =
      some (1, none) ∧
    c3_cex_chip.data_regs 15 + c3_cex_chip.data_regs 0 ≤ 255 :=
  ⟨rfl, by decide⟩

/-- C4 counterexample: from the freshly initialized machine (address
register 0, register 0 = 0), instruction `F,0,3,3` stores the decimal
digits 0,0,0 at memory[0..2], overwriting font bytes: memory[0] was
0xF0 = 240 and becomes 0.  The font region [0, 80) is therefore mutable
after initialization. -/
theorem c4_font_region_mutated_cex :
    ((exec 0 Chip.default 0xF033).map fun p => (p.1.memory 0, p.2)) =
      some (0, none) ∧
    Chip.default.memory 0 = 240 :=
  ⟨rfl, rfl⟩

/-- Chip whose program memory holds the instruction word F00A (wait for key
into register 0) at the load address 0x200 = 512. -/
def c5_chip : Chip :=
  { Chip.default with memory := upd (upd zmem 512 0xF0) 513 0x0A }

/-- State of `c5_chip` after the fetch advanced the instruction pointer. -/
def c5_after : Chip := { c5_chip with ip := 514 }

/-- C5: a cycle on F00A at 0x200 yields WaitForKey{0} with the pointer
already advanced to 0x202 = 514 — but the host's `wait_for_key` resolution
in gfx.rs advances the pointer *again* (`chip.ip += 2`), leaving it at
0x204 = 516 instead of the 514 the claim (and spec §4.4) requires, so the
instruction after F00A is skipped.  The key code itself is stored into the
named register as claimed. -/
theorem c5_wait_for_key_double_advance :
    cycle 0 c5_chip = some (c5_after, some (ChipException.WaitForKey 0)) ∧
    c5_after.ip = 514 ∧
    (wait_for_key c5_after 0 5).data_regs 0 = 5 ∧
    (wait_for_key c5_after 0 5).ip = 516 :=
  ⟨rfl, rfl, rfl, rfl⟩

/-- C6: the per-frame decay in gfx.rs decrements the delay timer correctly
but derives the sound timer from the *already decremented delay timer*
(`chip.sound_timer = chip.delay_timer.saturating_sub(1)`), not from the
sound timer: with delay = 7 and sound = 5 the frame leaves sound = 5 where
the claim requires max(5-1,0) = 4, and with delay = 0, sound = 5 it leaves
sound = 0.  The two timers are not decremented independently. -/
theorem c6_timer_decay_not_independent :
    (frame_timer_decay { Chip.default with delay_timer := 7, sound_timer := 5 }).delay_timer
      = 6 ∧
    (frame_timer_decay { Chip.default with delay_timer := 7, sound_timer := 5 }).sound_timer
      = 5 ∧
    (frame_timer_decay { Chip.default with delay_timer := 0, sound_timer := 5 }).sound_timer
      = 0 :=
  ⟨rfl, rfl, rfl⟩

/-- State reached from the initial machine by executing `1FFF` (jump to
0xFFF = 4095). -/
def c10_ip4095 : Chip := { Chip.default with ip := 4095 }

/-- State reached from the initial machine by executing `AFFF` (address
register := 4095). -/
def c10_addr4095 : Chip := { Chip.default with addr_reg := 4095 }

/-- State reached from the initial machine by executing `AFFE` (address
register := 4094). -/
def c10_addr4094 : Chip := { Chip.default with addr_reg := 4094 }

/-- C10: memory accesses through the address register and the instruction
pointer are unguarded, so the step function is partial on reachable states.
Each state below is reached from the initial machine by one legal
instruction, and the follow-up operation indexes the 4096-byte memory out
of bounds (modelled `none`, a Rust panic) instead of returning a typed
error: the fetch at ip = 4095 reads ip+1 = 4096; a draw of two sprite rows
with address register 4095 reads 4096; `F,0,3,3` at 4094 writes 4096;
`F,1,5,5` and `F,1,6,5` at 4095 access 4096. -/
theorem c10_memory_access_unguarded :
    exec 0 Chip.default 0x1FFF = some (c10_ip4095, none) ∧
    cycle 0 c10_ip4095 = none ∧
    exec 0 Chip.default 0xAFFF = some (c10_addr4095, none) ∧
    exec 0 c10_addr4095 0xD002 = none ∧
    exec 0 Chip.default 0xAFFE = some (c10_addr4094, none) ∧
    exec 0 c10_addr4094 0xF033 = none ∧
    exec 0 c10_addr4095 0xF155 = none ∧
    exec 0 c10_addr4095 0xF165 = none :=
  ⟨rfl, rfl, rfl, rfl, rfl, rfl, rfl, rfl⟩

end Chip8

namespace Chip8

/-! Helper lemmas about pointwise array updates and nibble decomposition. -/

lemma upd_same (m : Nat → Nat) (i v : Nat) : upd m i v i = v := by simp [upd]

lemma upd_other (m : Nat → Nat) (i v j : Nat) (h : j ≠ i) : upd m i v j = m j := by
  simp [upd, h]

lemma nibbles_digits (a x y k : Nat) (ha : a < 16) (hx : x < 16) (hy : y < 16) (hk : k < 16) :
    (a * 4096 + x * 256 + y * 16 + k) % 65536 / 4096 = a ∧
    (a * 4096 + x * 256 + y * 16 + k) % 4096 / 256 = x ∧
    (a * 4096 + x * 256 + y * 16 + k) % 256 / 16 = y ∧
    (a * 4096 + x * 256 + y * 16 + k) % 16 = k := by
  refine ⟨?_, ?_, ?_, ?_⟩ <;> omega

/-- C2 amended: the claimed shift semantics hold for the instructions
`8,x,y,6` and `8,x,y,E` whenever x ≠ y and x ≠ 15 (for x = y the flag is
computed from the already-shifted register, and for x = 15 the flag write
overwrites register x): register x receives register y shifted and register
15 receives the bit of register y shifted out, both read before the shift. -/
theorem c2_shift_amended (rnd : Nat) (c : Chip) (x y : Nat)
    (hx : x < 16) (hy : y < 16) (hxy : x ≠ y) (hx15 : x ≠ 15) :
    ((exec rnd c (0x8000 + x * 256 + y * 16 + 6)).map
        fun p => (p.1.data_regs x, p.1.data_regs 15, p.2)) =
      some (c.data_regs y / 2, c.data_regs y % 2, none) ∧
    ((exec rnd c (0x8000 + x * 256 + y * 16 + 14)).map
        fun p => (p.1.data_regs x, p.1.data_regs 15, p.2)) =
      some (c.data_regs y * 2 % 256, c.data_regs y / 128, none) := by
  have h8 : (0x8000 : Nat) = 8 * 4096 := by norm_num
  rw [h8]
  constructor
  · obtain ⟨ha, hb, hn2, hd⟩ := nibbles_digits 8 x y 6 (by norm_num) hx hy (by norm_num)
    have hexec : exec rnd c (8 * 4096 + x * 256 + y * 16 + 6) = some ({ c with data_regs := upd (upd c.data_regs x (c.data_regs y / 2)) 15 (upd c.data_regs x (c.data_regs y / 2) y % 2) }, none) := by
      simp only [exec, ha, hb, hn2, hd]
      norm_num
      intro h
      omega
    rw [hexec]
    simp only [Option.map_some']
    rw [upd_other _ _ _ _ hx15, upd_same, upd_same, upd_other _ _ _ _ (Ne.symm hxy)]
  · obtain ⟨ha, hb, hn2, hd⟩ := nibbles_digits 8 x y 14 (by norm_num) hx hy (by norm_num)
    have hexec : exec rnd c (8 * 4096 + x * 256 + y * 16 + 14) = some ({ c with data_regs := upd (upd c.data_regs x (c.data_regs y * 2 % 256)) 15 (upd c.data_regs x (c.data_regs y * 2 % 256) y / 128) }, none) := by
      simp only [exec, ha, hb, hn2, hd]
      norm_num
      intro h
      omega
    rw [hexec]
    simp only [Option.map_some']
    rw [upd_other _ _ _ _ hx15, upd_same, upd_same, upd_other _ _ _ _ (Ne.symm hxy)]

/-- Chip used to witness the amended C2 theorem: register 1 holds 5. -/
def c2w_chip : Chip := { Chip.default with data_regs := upd zregs 1 5 }

/-- C2 amended, witnessed at x = 0, y = 1 with register 1 = 5: `8,0,1,6`
gives register 0 = 2 and flag 1; `8,0,1,E` gives register 0 = 10 and
flag 0. -/
theorem c2_shift_amended_w :
    ((exec 0 c2w_chip 0x8016).map
        fun p => (p.1.data_regs 0, p.1.data_regs 15, p.2)) = some (2, 1, none) ∧
    ((exec 0 c2w_chip 0x801E).map
        fun p => (p.1.data_regs 0, p.1.data_regs 15, p.2)) = some (10, 0, none) :=
  c2_shift_amended 0 c2w_chip 0 1 (by norm_num) (by norm_num)
    (by norm_num) (by norm_num)

/-- C3 amended: `8,x,y,4` stores the wrapped sum in register x and, for
x ≠ 15, the carry bit (1 iff the sum exceeds 255) in register 15; when
x = 15 the wrapped sum overwrites the carry because the flag is written
before register x, so register 15 ends with the wrapped sum, not the
carry. -/
theorem c3_add_carry_amended (rnd : Nat) (c : Chip) (x y : Nat)
    (hx : x < 16) (hy : y < 16) :
    ((exec rnd c (0x8000 + x * 256 + y * 16 + 4)).map
        fun p => (p.1.data_regs x, p.2)) =
      some ((c.data_regs x + c.data_regs y) % 256, none) ∧
    (x ≠ 15 → ((exec rnd c (0x8000 + x * 256 + y * 16 + 4)).map
        fun p => p.1.data_regs 15) =
      some (if 255 < c.data_regs x + c.data_regs y then 1 else 0)) ∧
    (x = 15 → ((exec rnd c (0x8000 + x * 256 + y * 16 + 4)).map
        fun p => p.1.data_regs 15) =
      some ((c.data_regs x + c.data_regs y) % 256)) := by
  have h8 : (0x8000 : Nat) = 8 * 4096 := by norm_num
  rw [h8]
  obtain ⟨ha, hb, hn2, hd⟩ := nibbles_digits 8 x y 4 (by norm_num) hx hy (by norm_num)
  have hexec : exec rnd c (8 * 4096 + x * 256 + y * 16 + 4) = some ({ c with data_regs := upd (upd c.data_regs 15 (if 255 < c.data_regs x + c.data_regs y then 1 else 0)) x ((c.data_regs x + c.data_regs y) % 256) }, none) := by
    simp only [exec, ha, hb, hn2, hd]
    norm_num
    intro h
    omega
  rw [hexec]
  simp only [Option.map_some']
  refine ⟨?_, ?_, ?_⟩
  · rw [upd_same]
  · intro h15
    rw [upd_other _ _ _ _ (Ne.symm h15), upd_same]
  · intro h15
    subst h15
    rw [upd_same]

/-- Chip used to witness the amended C3 theorem: register 0 holds 200,
register 1 holds 100. -/
def c3w_chip : Chip := { Chip.default with data_regs := upd (upd zregs 0 200) 1 100 }

/-- C3 amended, witnessed at x = 0, y = 1 with 200 + 100 = 300 > 255:
register 0 becomes 44 and the flag becomes 1. -/
theorem c3_add_carry_amended_w :
    ((exec 0 c3w_chip 0x8014).map fun p => (p.1.data_regs 0, p.2)) = some (44, none) ∧
    ((exec 0 c3w_chip 0x8014).map fun p => p.1.data_regs 15) = some 1 :=
  ⟨(c3_add_carry_amended 0 c3w_chip 0 1 (by norm_num) (by norm_num)).1,
   (c3_add_carry_amended 0 c3w_chip 0 1 (by norm_num) (by norm_num)).2.1 (by norm_num)⟩

/-- C7: calling a subroutine (`2,n1,n2,n3`) via a cycle and then executing
the return instruction (`0,0,E,E`, the bytes 0x00 0xEE at the call target)
via a cycle restores the instruction pointer to exactly the byte after the
call instruction (call address + 2) and restores the call stack; and a
cycle executing the return instruction with an empty call stack yields
ReturnOutsideSubroutine. -/
theorem c7_call_then_return :
    (∀ rnd rnd' (c : Chip) n1 n2 n3,
      n1 < 16 → n2 < 16 → n3 < 16 →
      c.ip + 1 < 4096 →
      c.memory c.ip = 2 * 16 + n1 →
      c.memory (c.ip + 1) = n2 * 16 + n3 →
      u16_from_nibbles_3 n1 n2 n3 + 1 < 4096 →
      c.memory (u16_from_nibbles_3 n1 n2 n3) = 0 →
      c.memory (u16_from_nibbles_3 n1 n2 n3 + 1) = 0xEE →
      ((cycle rnd c).map fun p => (p.1.ip, p.1.stack, p.2)) =
        some (u16_from_nibbles_3 n1 n2 n3, (c.ip + 2) :: c.stack, none) ∧
      ((cycle rnd c).bind fun p => (cycle rnd' p.1).map fun q => (q.1.ip, q.1.stack, q.2)) =
        some (c.ip + 2, c.stack, none)) ∧
    (∀ rnd (c : Chip), c.stack = [] →
      c.ip + 1 < 4096 →
      c.memory c.ip = 0 →
      c.memory (c.ip + 1) = 0xEE →
      ((cycle rnd c).map fun p => p.2) = some (some ChipException.ReturnOutsideSubroutine)) := by
  constructor
  · intro rnd rnd' c n1 n2 n3 h1 h2 h3 hip hbhi hblo htgt thi tlo
    have hfetch : cycle rnd c = exec rnd { c with ip := (c.ip + 2) % 65536 } ((2 * 16 + n1) * 256 + (n2 * 16 + n3)) := by
      rw [cycle]
      simp only [readMem, MEM_SIZE]
      rw [if_pos (by omega : c.ip < 4096), if_pos hip, hbhi, hblo]
    have hinstr : (2 * 16 + n1) * 256 + (n2 * 16 + n3) = 2 * 4096 + n1 * 256 + n2 * 16 + n3 := by
      ring
    obtain ⟨ha, hb, hn2, hd⟩ := nibbles_digits 2 n1 n2 n3 (by norm_num) h1 h2 h3
    have hmod : (c.ip + 2) % 65536 = c.ip + 2 := by omega
    have hexec : cycle rnd c = some ({ c with ip := u16_from_nibbles_3 n1 n2 n3, stack := (c.ip + 2) :: c.stack }, none) := by
      rw [hfetch, hinstr]
      simp only [exec, ha, hb, hn2, hd]
      norm_num [hmod]
    have hexec2 : cycle rnd' { c with ip := u16_from_nibbles_3 n1 n2 n3, stack := (c.ip + 2) :: c.stack } = some ({ c with ip := c.ip + 2 }, none) := by
      rw [cycle]
      simp only [readMem, MEM_SIZE]
      rw [if_pos (by omega : u16_from_nibbles_3 n1 n2 n3 < 4096), if_pos htgt, thi, tlo]
      norm_num
      simp only [exec]
      norm_num
    refine ⟨?_, ?_⟩
    · rw [hexec]
      rfl
    · rw [hexec]
      show ((cycle rnd' { c with ip := u16_from_nibbles_3 n1 n2 n3, stack := (c.ip + 2) :: c.stack }).map fun q => (q.1.ip, q.1.stack, q.2)) = some (c.ip + 2, c.stack, none)
      rw [hexec2]
      rfl
  · intro rnd c hstack hip hbhi hblo
    rw [cycle]
    simp only [readMem, MEM_SIZE]
    rw [if_pos (by omega : c.ip < 4096), if_pos hip, hbhi, hblo]
    norm_num
    simp only [exec]
    norm_num [hstack]

/-- Chip for the C7 witness: the call `2206` (bytes 0x22 0x06) at the load
address 0x200 = 512, and the return bytes 0x00 0xEE at the call target
0x206 = 518. -/
def c7w_chip : Chip :=
  { Chip.default with memory := upd (upd (upd zmem 512 0x22) 513 0x06) 519 0xEE }

/-- Chip for the C7 witness, empty-stack half: the return bytes 0x00 0xEE
at the load address. -/
def c7w_empty_chip : Chip :=
  { Chip.default with memory := upd zmem 513 0xEE }

/-- C7 witnessed on `c7w_chip`: the call cycle moves to 518 pushing 514;
the return cycle comes back to 514 with the stack restored; and on
`c7w_empty_chip` the return cycle reports ReturnOutsideSubroutine. -/
theorem c7_call_then_return_w :
    ((cycle 0 c7w_chip).map fun p => (p.1.ip, p.1.stack, p.2)) =
      some (518, [514], none) ∧
    ((cycle 0 c7w_chip).bind fun p => (cycle 0 p.1).map fun q => (q.1.ip, q.1.stack, q.2)) =
      some (514, [], none) ∧
    ((cycle 0 c7w_empty_chip).map fun p => p.2) =
      some (some ChipException.ReturnOutsideSubroutine) :=
  ⟨(c7_call_then_return.1 0 0 c7w_chip 2 0 6 (by decide) (by decide) (by decide)
      (by decide) rfl rfl (by decide) rfl rfl).1,
   (c7_call_then_return.1 0 0 c7w_chip 2 0 6 (by decide) (by decide) (by decide)
      (by decide) rfl rfl (by decide) rfl rfl).2,
   c7_call_then_return.2 0 c7w_empty_chip rfl (by decide) rfl rfl⟩

end Chip8

namespace Chip8

/-- Helper: a `some (state, error)` result whose error is not
InvalidRegister differs from an InvalidRegister result. -/
lemma ne_some_IR_of_err {c0 c' : Chip} {e : Option ChipException}
    (he : e ≠ some ChipException.InvalidRegister) :
    some (c0, e) ≠ some (c', some ChipException.InvalidRegister) := by
  intro h
  rw [Option.some.injEq, Prod.mk.injEq] at h
  exact he h.2

/-- Helper: a panic (`none`) differs from any `some` result. -/
lemma none_ne_some_pair {x : Chip × Option ChipException} :
    (none : Option (Chip × Option ChipException)) ≠ some x := by simp

set_option maxHeartbeats 2000000 in
/-- C9: the InvalidRegister error is unreachable.  Every register-index
operand of `exec` is a decoded nibble `instr % 4096 / 256` or
`instr % 256 / 16`, which is at most 15, so every `x > 0xF` guard is false
and the executor never returns InvalidRegister, for any random byte, state
and instruction word.  The proof peels the dispatch chain arm by arm:
in each guard the omega-provable bound on the nibble kills the
InvalidRegister branch, and every remaining outcome carries either no
error, a different exception, or is a panic. -/
theorem c9_invalid_register_unreachable (rnd : Nat) (c : Chip) (instr : Nat) (c' : Chip) :
    exec rnd c instr ≠ some (c', some ChipException.InvalidRegister) := by
  simp only [exec]
  intro heq
  by_cases hA0 : instr % 65536 / 4096 = 0 ∧ instr % 4096 / 256 = 0 ∧ instr % 256 / 16 = 14 ∧ instr % 16 = 0
  · rw [if_pos hA0] at heq
    exact ne_some_IR_of_err (by simp) heq
  rw [if_neg hA0] at heq
  by_cases hA1 : instr % 65536 / 4096 = 0 ∧ instr % 4096 / 256 = 0 ∧ instr % 256 / 16 = 14 ∧ instr % 16 = 14
  · rw [if_pos hA1] at heq
    rcases hstck : c.stack with _ | ⟨a1, s1⟩ <;> rw [hstck] at heq <;> exact ne_some_IR_of_err (by simp) heq
  rw [if_neg hA1] at heq
  by_cases hA2 : instr % 65536 / 4096 = 0
  · rw [if_pos hA2] at heq
    exact ne_some_IR_of_err (by simp) heq
  rw [if_neg hA2] at heq
  by_cases hA3 : instr % 65536 / 4096 = 1
  · rw [if_pos hA3] at heq
    exact ne_some_IR_of_err (by simp) heq
  rw [if_neg hA3] at heq
  by_cases hA4 : instr % 65536 / 4096 = 2
  · rw [if_pos hA4] at heq
    exact ne_some_IR_of_err (by simp) heq
  rw [if_neg hA4] at heq
  by_cases hA5 : instr % 65536 / 4096 = 3
  · rw [if_pos hA5] at heq
    rw [if_neg (by omega : ¬ 15 < instr % 4096 / 256)] at heq
    split at heq <;> exact ne_some_IR_of_err (by simp) heq
  rw [if_neg hA5] at heq
  by_cases hA6 : instr % 65536 / 4096 = 4
  · rw [if_pos hA6] at heq
    rw [if_neg (by omega : ¬ 15 < instr % 4096 / 256)] at heq
    split at heq <;> exact ne_some_IR_of_err (by simp) heq
  rw [if_neg hA6] at heq
  by_cases hA7 : instr % 65536 / 4096 = 5 ∧ instr % 16 = 0
  · rw [if_pos hA7] at heq
    rw [if_neg (by omega : ¬ (15 < instr % 4096 / 256 ∨ 15 < instr % 256 / 16))] at heq
    split at heq <;> exact ne_some_IR_of_err (by simp) heq
  rw [if_neg hA7] at heq
  by_cases hA8 : instr % 65536 / 4096 = 6
  · rw [if_pos hA8] at heq
    rw [if_neg (by omega : ¬ 15 < instr % 4096 / 256)] at heq
    exact ne_some_IR_of_err (by simp) heq
  rw [if_neg hA8] at heq
  by_cases hA9 : instr % 65536 / 4096 = 7
  · rw [if_pos hA9] at heq
    rw [if_neg (by omega : ¬ 15 < instr % 4096 / 256)] at heq
    exact ne_some_IR_of_err (by simp) heq
  rw [if_neg hA9] at heq
  by_cases hA10 : instr % 65536 / 4096 = 8 ∧ instr % 16 = 0
  · rw [if_pos hA10] at heq
    rw [if_neg (by omega : ¬ (15 < instr % 4096 / 256 ∨ 15 < instr % 256 / 16))] at heq
    exact ne_some_IR_of_err (by simp) heq
  rw [if_neg hA10] at heq
  by_cases hA11 : instr % 65536 / 4096 = 8 ∧ instr % 16 = 1
  · rw [if_pos hA11] at heq
    rw [if_neg (by omega : ¬ (15 < instr % 4096 / 256 ∨ 15 < instr % 256 / 16))] at heq
    exact ne_some_IR_of_err (by simp) heq
  rw [if_neg hA11] at heq
  by_cases hA12 : instr % 65536 / 4096 = 8 ∧ instr % 16 = 2
  · rw [if_pos hA12] at heq
    rw [if_neg (by omega : ¬ (15 < instr % 4096 / 256 ∨ 15 < instr % 256 / 16))] at heq
    exact ne_some_IR_of_err (by simp) heq
  rw [if_neg hA12] at heq
  by_cases hA13 : instr % 65536 / 4096 = 8 ∧ instr % 16 = 3
  · rw [if_pos hA13] at heq
    rw [if_neg (by omega : ¬ (15 < instr % 4096 / 256 ∨ 15 < instr % 256 / 16))] at heq
    exact ne_some_IR_of_err (by simp) heq
  rw [if_neg hA13] at heq
  by_cases hA14 : instr % 65536 / 4096 = 8 ∧ instr % 16 = 4
  · rw [if_pos hA14] at heq
    rw [if_neg (by omega : ¬ (15 < instr % 4096 / 256 ∨ 15 < instr % 256 / 16))] at heq
    exact ne_some_IR_of_err (by simp) heq
  rw [if_neg hA14] at heq
  by_cases hA15 : instr % 65536 / 4096 = 8 ∧ instr % 16 = 5
  · rw [if_pos hA15] at heq
    rw [if_neg (by omega : ¬ (15 < instr % 4096 / 256 ∨ 15 < instr % 256 / 16))] at heq
    exact ne_some_IR_of_err (by simp) heq
  rw [if_neg hA15] at heq
  by_cases hA16 : instr % 65536 / 4096 = 8 ∧ instr % 16 = 6
  · rw [if_pos hA16] at heq
    rw [if_neg (by omega : ¬ (15 < instr % 4096 / 256 ∨ 15 < instr % 256 / 16))] at heq
    exact ne_some_IR_of_err (by simp) heq
  rw [if_neg hA16] at heq
  by_cases hA17 : instr % 65536 / 4096 = 8 ∧ instr % 16 = 7
  · rw [if_pos hA17] at heq
    rw [if_neg (by omega : ¬ (15 < instr % 4096 / 256 ∨ 15 < instr % 256 / 16))] at heq
    exact ne_some_IR_of_err (by simp) heq
  rw [if_neg hA17] at heq
  by_cases hA18 : instr % 65536 / 4096 = 8 ∧ instr % 16 = 14
  · rw [if_pos hA18] at heq
    rw [if_neg (by omega : ¬ (15 < instr % 4096 / 256 ∨ 15 < instr % 256 / 16))] at heq
    exact ne_some_IR_of_err (by simp) heq
  rw [if_neg hA18] at heq
  by_cases hA19 : instr % 65536 / 4096 = 9 ∧ instr % 16 = 0
  · rw [if_pos hA19] at heq
    rw [if_neg (by omega : ¬ (15 < instr % 4096 / 256 ∨ 15 < instr % 256 / 16))] at heq
    split at heq <;> exact ne_some_IR_of_err (by simp) heq
  rw [if_neg hA19] at heq
  by_cases hA20 : instr % 65536 / 4096 = 10
  · rw [if_pos hA20] at heq
    exact ne_some_IR_of_err (by simp) heq
  rw [if_neg hA20] at heq
  by_cases hA21 : instr % 65536 / 4096 = 11
  · rw [if_pos hA21] at heq
    exact ne_some_IR_of_err (by simp) heq
  rw [if_neg hA21] at heq
  by_cases hA22 : instr % 65536 / 4096 = 12
  · rw [if_pos hA22] at heq
    rw [if_neg (by omega : ¬ 15 < instr % 4096 / 256)] at heq
    exact ne_some_IR_of_err (by simp) heq
  rw [if_neg hA22] at heq
  by_cases hA23 : instr % 65536 / 4096 = 13
  · rw [if_pos hA23] at heq
    split at heq
    · exact none_ne_some_pair heq
    · exact ne_some_IR_of_err (by simp) heq
    · exact ne_some_IR_of_err (by simp) heq
  rw [if_neg hA23] at heq
  by_cases hA24 : instr % 65536 / 4096 = 14 ∧ instr % 256 / 16 = 9 ∧ instr % 16 = 14
  · rw [if_pos hA24] at heq
    rw [if_neg (by omega : ¬ 15 < instr % 4096 / 256)] at heq
    exact ne_some_IR_of_err (by simp) heq
  rw [if_neg hA24] at heq
  by_cases hA25 : instr % 65536 / 4096 = 14 ∧ instr % 256 / 16 = 10 ∧ instr % 16 = 1
  · rw [if_pos hA25] at heq
    rw [if_neg (by omega : ¬ 15 < instr % 4096 / 256)] at heq
    exact ne_some_IR_of_err (by simp) heq
  rw [if_neg hA25] at heq
  by_cases hA26 : instr % 65536 / 4096 = 15 ∧ instr % 256 / 16 = 0 ∧ instr % 16 = 7
  · rw [if_pos hA26] at heq
    rw [if_neg (by omega : ¬ 15 < instr % 4096 / 256)] at heq
    exact ne_some_IR_of_err (by simp) heq
  rw [if_neg hA26] at heq
  by_cases hA27 : instr % 65536 / 4096 = 15 ∧ instr % 256 / 16 = 0 ∧ instr % 16 = 10
  · rw [if_pos hA27] at heq
    rw [if_neg (by omega : ¬ 15 < instr % 4096 / 256)] at heq
    exact ne_some_IR_of_err (by simp) heq
  rw [if_neg hA27] at heq
  by_cases hA28 : instr % 65536 / 4096 = 15 ∧ instr % 256 / 16 = 1 ∧ instr % 16 = 5
  · rw [if_pos hA28] at heq
    rw [if_neg (by omega : ¬ 15 < instr % 4096 / 256)] at heq
    exact ne_some_IR_of_err (by simp) heq
  rw [if_neg hA28] at heq
  by_cases hA29 : instr % 65536 / 4096 = 15 ∧ instr % 256 / 16 = 1 ∧ instr % 16 = 8
  · rw [if_pos hA29] at heq
    rw [if_neg (by omega : ¬ 15 < instr % 4096 / 256)] at heq
    exact ne_some_IR_of_err (by simp) heq
  rw [if_neg hA29] at heq
  by_cases hA30 : instr % 65536 / 4096 = 15 ∧ instr % 256 / 16 = 1 ∧ instr % 16 = 14
  · rw [if_pos hA30] at heq
    rw [if_neg (by omega : ¬ 15 < instr % 4096 / 256)] at heq
    exact ne_some_IR_of_err (by simp) heq
  rw [if_neg hA30] at heq
  by_cases hA31 : instr % 65536 / 4096 = 15 ∧ instr % 256 / 16 = 2 ∧ instr % 16 = 9
  · rw [if_pos hA31] at heq
    rw [if_neg (by omega : ¬ 15 < instr % 4096 / 256)] at heq
    split at heq <;> exact ne_some_IR_of_err (by simp) heq
  rw [if_neg hA31] at heq
  by_cases hA32 : instr % 65536 / 4096 = 15 ∧ instr % 256 / 16 = 3 ∧ instr % 16 = 3
  · rw [if_pos hA32] at heq
    rw [if_neg (by omega : ¬ 15 < instr % 4096 / 256)] at heq
    repeat' (split at heq)
    all_goals first | exact none_ne_some_pair heq | exact ne_some_IR_of_err (by simp) heq
  rw [if_neg hA32] at heq
  by_cases hA33 : instr % 65536 / 4096 = 15 ∧ instr % 256 / 16 = 5 ∧ instr % 16 = 5
  · rw [if_pos hA33] at heq
    rw [if_neg (by omega : ¬ 15 < instr % 4096 / 256)] at heq
    split at heq <;> first | exact none_ne_some_pair heq | exact ne_some_IR_of_err (by simp) heq
  rw [if_neg hA33] at heq
  by_cases hA34 : instr % 65536 / 4096 = 15 ∧ instr % 256 / 16 = 6 ∧ instr % 16 = 5
  · rw [if_pos hA34] at heq
    rw [if_neg (by omega : ¬ 15 < instr % 4096 / 256)] at heq
    split at heq <;> first | exact none_ne_some_pair heq | exact ne_some_IR_of_err (by simp) heq
  rw [if_neg hA34] at heq
  exact ne_some_IR_of_err (by simp) heq

/-- C9 witnessed at a concrete input: `3,0,F,F` on the initial machine does
not produce InvalidRegister. -/
theorem c9_invalid_register_unreachable_w :
    exec 0 Chip.default 0x30FF ≠ some (Chip.default, some ChipException.InvalidRegister) :=
  c9_invalid_register_unreachable 0 Chip.default 0x30FF Chip.default

end Chip8

namespace Chip8

/-- Helper: equal `some (state, error)` results have equal memories. -/
lemma mem_eq_of_pair_eq {c0 c' : Chip} {e e' : Option ChipException}
    (h : some (c0, e) = some (c', e')) : c'.memory = c0.memory := by
  rw [Option.some.injEq, Prod.mk.injEq] at h
  rw [← h.1]

/-- Helper: a successful bounds-checked write leaves every other index
unchanged. -/
lemma writeMem_some {size : Nat} {m : Nat → Nat} {idx v : Nat} {m' : Nat → Nat}
    (h : writeMem size m idx v = some m') (i : Nat) (hi : i ≠ idx) : m' i = m i := by
  rw [writeMem] at h
  split at h
  · rw [Option.some.injEq] at h
    rw [← h]
    exact upd_other m idx v i hi
  · exact absurd h (by simp)

/-- Helper: the register-store loop leaves every index below 80 unchanged
when all of its write targets are at or above 80. -/
lemma storeRegsAux_low {regs : Nat → Nat} {addr : Nat} {idxs : List Nat} {mem mem' : Nat → Nat}
    (hidx : ∀ k ∈ idxs, 80 ≤ (addr + k) % 65536)
    (h : storeRegsAux regs addr idxs mem = some mem') (i : Nat) (hi : i < 80) :
    mem' i = mem i := by
  induction idxs generalizing mem with
  | nil =>
    rw [storeRegsAux, Option.some.injEq] at h
    rw [h]
  | cons k rest ih =>
    rw [storeRegsAux] at h
    rcases hw : writeMem MEM_SIZE mem ((addr + k) % 65536) (regs k) with _ | m2
    · rw [hw] at h
      exact absurd h (by simp)
    rw [hw] at h
    have h1 := ih (fun j hj => hidx j (List.mem_cons_of_mem _ hj)) h
    rw [h1]
    refine writeMem_some hw i ?_
    have := hidx k (List.mem_cons_self _ _)
    omega

set_option maxHeartbeats 2000000 in
/-- C4 amended: the font region [0, 80) is preserved by every instruction
execution *provided the address register points at or above 80* (and does
not wrap: address register + 15 below 2^16), because the only instructions
that write memory — `F,x,3,3` and `F,x,5,5` — write only at address
register + 0..15.  Without that proviso the claim is false: the stores
perform no lower-bound check, and `F,0,3,3` with address register 0
overwrites font byte 0 (shown by the counterexample theorem above). -/
theorem c4_font_region_preserved (rnd : Nat) (c : Chip) (instr : Nat) (c' : Chip)
    (err : Option ChipException)
    (h80 : 80 ≤ c.addr_reg) (hnw : c.addr_reg + 15 < 65536)
    (hexec : exec rnd c instr = some (c', err)) (i : Nat) (hi : i < 80) :
    c'.memory i = c.memory i := by
  have heq := hexec
  simp only [exec] at heq
  by_cases hA0 : instr % 65536 / 4096 = 0 ∧ instr % 4096 / 256 = 0 ∧ instr % 256 / 16 = 14 ∧ instr % 16 = 0
  · rw [if_pos hA0] at heq
    repeat' (split at heq)
    all_goals first
      | exact absurd heq none_ne_some_pair
      | exact congrFun (mem_eq_of_pair_eq heq) i
  rw [if_neg hA0] at heq
  by_cases hA1 : instr % 65536 / 4096 = 0 ∧ instr % 4096 / 256 = 0 ∧ instr % 256 / 16 = 14 ∧ instr % 16 = 14
  · rw [if_pos hA1] at heq
    repeat' (split at heq)
    all_goals first
      | exact absurd heq none_ne_some_pair
      | exact congrFun (mem_eq_of_pair_eq heq) i
  rw [if_neg hA1] at heq
  by_cases hA2 : instr % 65536 / 4096 = 0
  · rw [if_pos hA2] at heq
    repeat' (split at heq)
    all_goals first
      | exact absurd heq none_ne_some_pair
      | exact congrFun (mem_eq_of_pair_eq heq) i
  rw [if_neg hA2] at heq
  by_cases hA3 : instr % 65536 / 4096 = 1
  · rw [if_pos hA3] at heq
    repeat' (split at heq)
    all_goals first
      | exact absurd heq none_ne_some_pair
      | exact congrFun (mem_eq_of_pair_eq heq) i
  rw [if_neg hA3] at heq
  by_cases hA4 : instr % 65536 / 4096 = 2
  · rw [if_pos hA4] at heq
    repeat' (split at heq)
    all_goals first
      | exact absurd heq none_ne_some_pair
      | exact congrFun (mem_eq_of_pair_eq heq) i
  rw [if_neg hA4] at heq
  by_cases hA5 : instr % 65536 / 4096 = 3
  · rw [if_pos hA5] at heq
    repeat' (split at heq)
    all_goals first
      | exact absurd heq none_ne_some_pair
      | exact congrFun (mem_eq_of_pair_eq heq) i
  rw [if_neg hA5] at heq
  by_cases hA6 : instr % 65536 / 4096 = 4
  · rw [if_pos hA6] at heq
    repeat' (split at heq)
    all_goals first
      | exact absurd heq none_ne_some_pair
      | exact congrFun (mem_eq_of_pair_eq heq) i
  rw [if_neg hA6] at heq
  by_cases hA7 : instr % 65536 / 4096 = 5 ∧ instr % 16 = 0
  · rw [if_pos hA7] at heq
    repeat' (split at heq)
    all_goals first
      | exact absurd heq none_ne_some_pair
      | exact congrFun (mem_eq_of_pair_eq heq) i
  rw [if_neg hA7] at heq
  by_cases hA8 : instr % 65536 / 4096 = 6
  · rw [if_pos hA8] at heq
    repeat' (split at heq)
    all_goals first
      | exact absurd heq none_ne_some_pair
      | exact congrFun (mem_eq_of_pair_eq heq) i
  rw [if_neg hA8] at heq
  by_cases hA9 : instr % 65536 / 4096 = 7
  · rw [if_pos hA9] at heq
    repeat' (split at heq)
    all_goals first
      | exact absurd heq none_ne_some_pair
      | exact congrFun (mem_eq_of_pair_eq heq) i
  rw [if_neg hA9] at heq
  by_cases hA10 : instr % 65536 / 4096 = 8 ∧ instr % 16 = 0
  · rw [if_pos hA10] at heq
    repeat' (split at heq)
    all_goals first
      | exact absurd heq none_ne_some_pair
      | exact congrFun (mem_eq_of_pair_eq heq) i
  rw [if_neg hA10] at heq
  by_cases hA11 : instr % 65536 / 4096 = 8 ∧ instr % 16 = 1
  · rw [if_pos hA11] at heq
    repeat' (split at heq)
    all_goals first
      | exact absurd heq none_ne_some_pair
      | exact congrFun (mem_eq_of_pair_eq heq) i
  rw [if_neg hA11] at heq
  by_cases hA12 : instr % 65536 / 4096 = 8 ∧ instr % 16 = 2
  · rw [if_pos hA12] at heq
    repeat' (split at heq)
    all_goals first
      | exact absurd heq none_ne_some_pair
      | exact congrFun (mem_eq_of_pair_eq heq) i
  rw [if_neg hA12] at heq
  by_cases hA13 : instr % 65536 / 4096 = 8 ∧ instr % 16 = 3
  · rw [if_pos hA13] at heq
    repeat' (split at heq)
    all_goals first
      | exact absurd heq none_ne_some_pair
      | exact congrFun (mem_eq_of_pair_eq heq) i
  rw [if_neg hA13] at heq
  by_cases hA14 : instr % 65536 / 4096 = 8 ∧ instr % 16 = 4
  · rw [if_pos hA14] at heq
    repeat' (split at heq)
    all_goals first
      | exact absurd heq none_ne_some_pair
      | exact congrFun (mem_eq_of_pair_eq heq) i
  rw [if_neg hA14] at heq
  by_cases hA15 : instr % 65536 / 4096 = 8 ∧ instr % 16 = 5
  · rw [if_pos hA15] at heq
    repeat' (split at heq)
    all_goals first
      | exact absurd heq none_ne_some_pair
      | exact congrFun (mem_eq_of_pair_eq heq) i
  rw [if_neg hA15] at heq
  by_cases hA16 : instr % 65536 / 4096 = 8 ∧ instr % 16 = 6
  · rw [if_pos hA16] at heq
    repeat' (split at heq)
    all_goals first
      | exact absurd heq none_ne_some_pair
      | exact congrFun (mem_eq_of_pair_eq heq) i
  rw [if_neg hA16] at heq
  by_cases hA17 : instr % 65536 / 4096 = 8 ∧ instr % 16 = 7
  · rw [if_pos hA17] at heq
    repeat' (split at heq)
    all_goals first
      | exact absurd heq none_ne_some_pair
      | exact congrFun (mem_eq_of_pair_eq heq) i
  rw [if_neg hA17] at heq
  by_cases hA18 : instr % 65536 / 4096 = 8 ∧ instr % 16 = 14
  · rw [if_pos hA18] at heq
    repeat' (split at heq)
    all_goals first
      | exact absurd heq none_ne_some_pair
      | exact congrFun (mem_eq_of_pair_eq heq) i
  rw [if_neg hA18] at heq
  by_cases hA19 : instr % 65536 / 4096 = 9 ∧ instr % 16 = 0
  · rw [if_pos hA19] at heq
    repeat' (split at heq)
    all_goals first
      | exact absurd heq none_ne_some_pair
      | exact congrFun (mem_eq_of_pair_eq heq) i
  rw [if_neg hA19] at heq
  by_cases hA20 : instr % 65536 / 4096 = 10
  · rw [if_pos hA20] at heq
    repeat' (split at heq)
    all_goals first
      | exact absurd heq none_ne_some_pair
      | exact congrFun (mem_eq_of_pair_eq heq) i
  rw [if_neg hA20] at heq
  by_cases hA21 : instr % 65536 / 4096 = 11
  · rw [if_pos hA21] at heq
    repeat' (split at heq)
    all_goals first
      | exact absurd heq none_ne_some_pair
      | exact congrFun (mem_eq_of_pair_eq heq) i
  rw [if_neg hA21] at heq
  by_cases hA22 : instr % 65536 / 4096 = 12
  · rw [if_pos hA22] at heq
    repeat' (split at heq)
    all_goals first
      | exact absurd heq none_ne_some_pair
      | exact congrFun (mem_eq_of_pair_eq heq) i
  rw [if_neg hA22] at heq
  by_cases hA23 : instr % 65536 / 4096 = 13
  · rw [if_pos hA23] at heq
    repeat' (split at heq)
    all_goals first
      | exact absurd heq none_ne_some_pair
      | exact congrFun (mem_eq_of_pair_eq heq) i
  rw [if_neg hA23] at heq
  by_cases hA24 : instr % 65536 / 4096 = 14 ∧ instr % 256 / 16 = 9 ∧ instr % 16 = 14
  · rw [if_pos hA24] at heq
    repeat' (split at heq)
    all_goals first
      | exact absurd heq none_ne_some_pair
      | exact congrFun (mem_eq_of_pair_eq heq) i
  rw [if_neg hA24] at heq
  by_cases hA25 : instr % 65536 / 4096 = 14 ∧ instr % 256 / 16 = 10 ∧ instr % 16 = 1
  · rw [if_pos hA25] at heq
    repeat' (split at heq)
    all_goals first
      | exact absurd heq none_ne_some_pair
      | exact congrFun (mem_eq_of_pair_eq heq) i
  rw [if_neg hA25] at heq
  by_cases hA26 : instr % 65536 / 4096 = 15 ∧ instr % 256 / 16 = 0 ∧ instr % 16 = 7
  · rw [if_pos hA26] at heq
    repeat' (split at heq)
    all_goals first
      | exact absurd heq none_ne_some_pair
      | exact congrFun (mem_eq_of_pair_eq heq) i
  rw [if_neg hA26] at heq
  by_cases hA27 : instr % 65536 / 4096 = 15 ∧ instr % 256 / 16 = 0 ∧ instr % 16 = 10
  · rw [if_pos hA27] at heq
    repeat' (split at heq)
    all_goals first
      | exact absurd heq none_ne_some_pair
      | exact congrFun (mem_eq_of_pair_eq heq) i
  rw [if_neg hA27] at heq
  by_cases hA28 : instr % 65536 / 4096 = 15 ∧ instr % 256 / 16 = 1 ∧ instr % 16 = 5
  · rw [if_pos hA28] at heq
    repeat' (split at heq)
    all_goals first
      | exact absurd heq none_ne_some_pair
      | exact congrFun (mem_eq_of_pair_eq heq) i
  rw [if_neg hA28] at heq
  by_cases hA29 : instr % 65536 / 4096 = 15 ∧ instr % 256 / 16 = 1 ∧ instr % 16 = 8
  · rw [if_pos hA29] at heq
    repeat' (split at heq)
    all_goals first
      | exact absurd heq none_ne_some_pair
      | exact congrFun (mem_eq_of_pair_eq heq) i
  rw [if_neg hA29] at heq
  by_cases hA30 : instr % 65536 / 4096 = 15 ∧ instr % 256 / 16 = 1 ∧ instr % 16 = 14
  · rw [if_pos hA30] at heq
    repeat' (split at heq)
    all_goals first
      | exact absurd heq none_ne_some_pair
      | exact congrFun (mem_eq_of_pair_eq heq) i
  rw [if_neg hA30] at heq
  by_cases hA31 : instr % 65536 / 4096 = 15 ∧ instr % 256 / 16 = 2 ∧ instr % 16 = 9
  · rw [if_pos hA31] at heq
    repeat' (split at heq)
    all_goals first
      | exact absurd heq none_ne_some_pair
      | exact congrFun (mem_eq_of_pair_eq heq) i
  rw [if_neg hA31] at heq
  by_cases hA32 : instr % 65536 / 4096 = 15 ∧ instr % 256 / 16 = 3 ∧ instr % 16 = 3
  · rw [if_pos hA32] at heq
    by_cases hg : 15 < instr % 4096 / 256
    · rw [if_pos hg] at heq
      exact congrFun (mem_eq_of_pair_eq heq) i
    rw [if_neg hg] at heq
    rcases hw1 : writeMem MEM_SIZE c.memory c.addr_reg (binary_coded_decimal (c.data_regs (instr % 4096 / 256))).1 with _ | m1
    · rw [hw1] at heq
      exact absurd heq none_ne_some_pair
    rw [hw1] at heq
    simp only [] at heq
    rcases hw2 : writeMem MEM_SIZE m1 ((c.addr_reg + 1) % 65536) (binary_coded_decimal (c.data_regs (instr % 4096 / 256))).2.1 with _ | m2
    · rw [hw2] at heq
      exact absurd heq none_ne_some_pair
    rw [hw2] at heq
    simp only [] at heq
    rcases hw3 : writeMem MEM_SIZE m2 ((c.addr_reg + 2) % 65536) (binary_coded_decimal (c.data_regs (instr % 4096 / 256))).2.2 with _ | m3
    · rw [hw3] at heq
      exact absurd heq none_ne_some_pair
    rw [hw3] at heq
    simp only [] at heq
    have hmem : c'.memory = m3 := mem_eq_of_pair_eq heq
    rw [hmem]
    rw [writeMem_some hw3 i (by omega)]
    rw [writeMem_some hw2 i (by omega)]
    rw [writeMem_some hw1 i (by omega)]
  rw [if_neg hA32] at heq
  by_cases hA33 : instr % 65536 / 4096 = 15 ∧ instr % 256 / 16 = 5 ∧ instr % 16 = 5
  · rw [if_pos hA33] at heq
    by_cases hg : 15 < instr % 4096 / 256
    · rw [if_pos hg] at heq
      exact congrFun (mem_eq_of_pair_eq heq) i
    rw [if_neg hg] at heq
    rcases hs : storeRegsAux c.data_regs c.addr_reg (List.range (instr % 4096 / 256 + 1)) c.memory with _ | m'
    · rw [hs] at heq
      exact absurd heq none_ne_some_pair
    rw [hs] at heq
    simp only [] at heq
    have hmem : c'.memory = m' := mem_eq_of_pair_eq heq
    rw [hmem]
    refine storeRegsAux_low ?_ hs i hi
    intro k hk
    have hk16 : k < 16 := by
      have := List.mem_range.mp hk
      omega
    omega
  rw [if_neg hA33] at heq
  by_cases hA34 : instr % 65536 / 4096 = 15 ∧ instr % 256 / 16 = 6 ∧ instr % 16 = 5
  · rw [if_pos hA34] at heq
    repeat' (split at heq)
    all_goals first
      | exact absurd heq none_ne_some_pair
      | exact congrFun (mem_eq_of_pair_eq heq) i
  rw [if_neg hA34] at heq
  exact congrFun (mem_eq_of_pair_eq heq) i

/-- Chip for the C4 witness: address register 80 on the initial machine. -/
def c4w_chip : Chip := { Chip.default with addr_reg := 80 }

/-- State of `c4w_chip` after `F,0,3,3` stored the decimal digits of
register 0 = 0 at memory[80..82]. -/
def c4w_after : Chip :=
  { c4w_chip with memory := upd (upd (upd c4w_chip.memory 80 0) 81 0) 82 0 }

/-- C4 amended, witnessed: `F,0,3,3` with address register 80 leaves font
byte 0 unchanged. -/
theorem c4_font_region_preserved_w :
    c4w_after.memory 0 = c4w_chip.memory 0 :=
  c4_font_region_preserved 0 c4w_chip 0xF033 c4w_after none (by decide) (by decide)
    rfl 0 (by decide)

end Chip8

namespace Chip8


/-- Draw-column loop over cells that are all 0: every set sprite bit turns
its cell to 1, no cell is turned off (the collision flag is unchanged), and
untouched cells keep their value. -/
lemma drawCols_zeros (pr sc rd : Nat) (hpr : pr ≤ 31) (hsc : sc + 8 ≤ 64) :
    ∀ (cols : List Nat), (∀ cl ∈ cols, cl < 8) → cols.Pairwise (· ≠ ·) →
    ∀ (vm : Nat → Nat) (flag : Bool),
    (∀ cl ∈ cols, 0 < rd >>> (7 - cl) % 2 → vm (pr * 64 + (sc + cl)) = 0) →
    ∃ vm', drawColsAux pr sc rd cols vm flag = some (.ok (vm', flag)) ∧
      (∀ cl ∈ cols, 0 < rd >>> (7 - cl) % 2 → vm' (pr * 64 + (sc + cl)) = 1) ∧
      (∀ j, (∀ cl ∈ cols, 0 < rd >>> (7 - cl) % 2 → j ≠ pr * 64 + (sc + cl)) → vm' j = vm j) := by
  intro cols
  induction cols with
  | nil =>
    intro _ _ vm flag _
    exact ⟨vm, rfl, by simp, fun j _ => rfl⟩
  | cons cl rest ih =>
    intro hcols hnd vm flag hz
    have hcl8 : cl < 8 := hcols cl (List.mem_cons_self _ _)
    have hoffmod : (sc + cl) % 256 = sc + cl := Nat.mod_eq_of_lt (by omega)
    have hlt : pr * 64 + (sc + cl) < 2048 := by nlinarith
    by_cases hset : 0 < rd >>> (7 - cl) % 2
    · -- bit set: xor the zero cell to 1
      have hv : vm (pr * 64 + (sc + cl)) = 0 := hz cl (List.mem_cons_self _ _) hset
      have step : drawColsAux pr sc rd (cl :: rest) vm flag =
          drawColsAux pr sc rd rest (upd vm (pr * 64 + (sc + cl)) 1) flag := by
        rw [drawColsAux]
        rw [if_pos hset, hoffmod]
        rw [if_neg (by simp only [VIDEO_SIZE]; omega : ¬ pr * 64 + (sc + cl) > VIDEO_SIZE)]
        rw [readMem, if_pos (show pr * 64 + (sc + cl) < VIDEO_SIZE by simp only [VIDEO_SIZE]; omega), hv]
        simp only [show Nat.xor 0 1 = 1 from rfl, show decide ((1 : Nat) = 0) = false from rfl,
          Bool.or_false]
      have hz2 : ∀ c2 ∈ rest, 0 < rd >>> (7 - c2) % 2 →
          upd vm (pr * 64 + (sc + cl)) 1 (pr * 64 + (sc + c2)) = 0 := by
        intro c2 h2 hset2
        have hne : cl ≠ c2 := (List.pairwise_cons.mp hnd).1 c2 h2
        have hne2 : pr * 64 + (sc + c2) ≠ pr * 64 + (sc + cl) := by omega
        rw [upd_other _ _ _ _ hne2]
        exact hz c2 (List.mem_cons_of_mem _ h2) hset2
      obtain ⟨vm', hrun, hones, hunch⟩ := ih (fun c2 h2 => hcols c2 (List.mem_cons_of_mem _ h2))
        (List.Pairwise.of_cons hnd) (upd vm (pr * 64 + (sc + cl)) 1) flag hz2
      refine ⟨vm', by rw [step, hrun], ?_, ?_⟩
      · intro c2 h2 hset2
        rcases List.mem_cons.mp h2 with h2 | h2
        · subst h2
          have hdiff : ∀ c3 ∈ rest, 0 < rd >>> (7 - c3) % 2 →
              pr * 64 + (sc + c2) ≠ pr * 64 + (sc + c3) := by
            intro c3 h3 _
            have hne : c2 ≠ c3 := (List.pairwise_cons.mp hnd).1 c3 h3
            omega
          rw [hunch _ hdiff]
          exact upd_same vm _ 1
        · exact hones c2 h2 hset2
      · intro j hj
        have hj2 : ∀ c2 ∈ rest, 0 < rd >>> (7 - c2) % 2 → j ≠ pr * 64 + (sc + c2) :=
          fun c2 h2 hs2 => hj c2 (List.mem_cons_of_mem _ h2) hs2
        rw [hunch j hj2]
        exact upd_other _ _ _ _ (hj cl (List.mem_cons_self _ _) hset)
    · -- bit clear: skip the cell
      have step : drawColsAux pr sc rd (cl :: rest) vm flag =
          drawColsAux pr sc rd rest vm flag := by
        rw [drawColsAux, if_neg hset]
      obtain ⟨vm', hrun, hones, hunch⟩ := ih (fun c2 h2 => hcols c2 (List.mem_cons_of_mem _ h2))
        (List.Pairwise.of_cons hnd) vm flag
        (fun c2 h2 hs2 => hz c2 (List.mem_cons_of_mem _ h2) hs2)
      refine ⟨vm', by rw [step, hrun], ?_, ?_⟩
      · intro c2 h2 hset2
        rcases List.mem_cons.mp h2 with h2 | h2
        · subst h2
          exact absurd hset2 hset
        · exact hones c2 h2 hset2
      · intro j hj
        exact hunch j (fun c2 h2 hs2 => hj c2 (List.mem_cons_of_mem _ h2) hs2)



/-- Draw-column loop over cells that hold 1 at every set sprite bit: every
set bit turns its cell off, so the collision flag ends true as soon as one
bit is set; untouched cells keep their value. -/
lemma drawCols_ones (pr sc rd : Nat) (hpr : pr ≤ 31) (hsc : sc + 8 ≤ 64) :
    ∀ (cols : List Nat), (∀ cl ∈ cols, cl < 8) → cols.Pairwise (· ≠ ·) →
    ∀ (vm : Nat → Nat) (flag : Bool),
    (∀ cl ∈ cols, 0 < rd >>> (7 - cl) % 2 → vm (pr * 64 + (sc + cl)) = 1) →
    ∃ vm', drawColsAux pr sc rd cols vm flag =
        some (.ok (vm', flag || cols.any (fun cl => decide (0 < rd >>> (7 - cl) % 2)))) ∧
      (∀ cl ∈ cols, 0 < rd >>> (7 - cl) % 2 → vm' (pr * 64 + (sc + cl)) = 0) ∧
      (∀ j, (∀ cl ∈ cols, 0 < rd >>> (7 - cl) % 2 → j ≠ pr * 64 + (sc + cl)) → vm' j = vm j) := by
  intro cols
  induction cols with
  | nil =>
    intro _ _ vm flag _
    exact ⟨vm, by simp [drawColsAux], by simp, fun j _ => rfl⟩
  | cons cl rest ih =>
    intro hcols hnd vm flag hone
    have hcl8 : cl < 8 := hcols cl (List.mem_cons_self _ _)
    have hoffmod : (sc + cl) % 256 = sc + cl := Nat.mod_eq_of_lt (by omega)
    have hlt : pr * 64 + (sc + cl) < 2048 := by nlinarith
    by_cases hset : 0 < rd >>> (7 - cl) % 2
    · have hv : vm (pr * 64 + (sc + cl)) = 1 := hone cl (List.mem_cons_self _ _) hset
      have step : drawColsAux pr sc rd (cl :: rest) vm flag =
          drawColsAux pr sc rd rest (upd vm (pr * 64 + (sc + cl)) 0) true := by
        rw [drawColsAux]
        rw [if_pos hset, hoffmod]
        rw [if_neg (by simp only [VIDEO_SIZE]; omega : ¬ pr * 64 + (sc + cl) > VIDEO_SIZE)]
        rw [readMem, if_pos (show pr * 64 + (sc + cl) < VIDEO_SIZE by simp only [VIDEO_SIZE]; omega), hv]
        simp only [show Nat.xor 1 1 = 0 from rfl, show decide ((0 : Nat) = 0) = true from rfl,
          decide_True, Bool.or_true]
      have hone2 : ∀ c2 ∈ rest, 0 < rd >>> (7 - c2) % 2 →
          upd vm (pr * 64 + (sc + cl)) 0 (pr * 64 + (sc + c2)) = 1 := by
        intro c2 h2 hset2
        have hne : cl ≠ c2 := (List.pairwise_cons.mp hnd).1 c2 h2
        have hne2 : pr * 64 + (sc + c2) ≠ pr * 64 + (sc + cl) := by omega
        rw [upd_other _ _ _ _ hne2]
        exact hone c2 (List.mem_cons_of_mem _ h2) hset2
      obtain ⟨vm', hrun, hzeros, hunch⟩ := ih (fun c2 h2 => hcols c2 (List.mem_cons_of_mem _ h2))
        (List.Pairwise.of_cons hnd) (upd vm (pr * 64 + (sc + cl)) 0) true hone2
      refine ⟨vm', ?_, ?_, ?_⟩
      · rw [step, hrun]
        have hd : decide (0 < rd >>> (7 - cl) % 2) = true := decide_eq_true hset
        simp [List.any_cons, hd]
      · intro c2 h2 hset2
        rcases List.mem_cons.mp h2 with h2 | h2
        · subst h2
          have hdiff : ∀ c3 ∈ rest, 0 < rd >>> (7 - c3) % 2 →
              pr * 64 + (sc + c2) ≠ pr * 64 + (sc + c3) := by
            intro c3 h3 _
            have hne : c2 ≠ c3 := (List.pairwise_cons.mp hnd).1 c3 h3
            omega
          rw [hunch _ hdiff]
          exact upd_same vm _ 0
        · exact hzeros c2 h2 hset2
      · intro j hj
        have hj2 : ∀ c2 ∈ rest, 0 < rd >>> (7 - c2) % 2 → j ≠ pr * 64 + (sc + c2) :=
          fun c2 h2 hs2 => hj c2 (List.mem_cons_of_mem _ h2) hs2
        rw [hunch j hj2]
        exact upd_other _ _ _ _ (hj cl (List.mem_cons_self _ _) hset)
    · have step : drawColsAux pr sc rd (cl :: rest) vm flag =
          drawColsAux pr sc rd rest vm flag := by
        rw [drawColsAux, if_neg hset]
      obtain ⟨vm', hrun, hzeros, hunch⟩ := ih (fun c2 h2 => hcols c2 (List.mem_cons_of_mem _ h2))
        (List.Pairwise.of_cons hnd) vm flag
        (fun c2 h2 hs2 => hone c2 (List.mem_cons_of_mem _ h2) hs2)
      refine ⟨vm', ?_, ?_, ?_⟩
      · rw [step, hrun]
        have hd : decide (0 < rd >>> (7 - cl) % 2) = false := decide_eq_false hset
        simp [List.any_cons, hd]
      · intro c2 h2 hset2
        rcases List.mem_cons.mp h2 with h2 | h2
        · subst h2
          exact absurd hset2 hset
        · exact hzeros c2 h2 hset2
      · intro j hj
        exact hunch j (fun c2 h2 hs2 => hj c2 (List.mem_cons_of_mem _ h2) hs2)



/-- Draw-row loop over a zeroed framebuffer: all cells under set sprite
bits become 1, the collision flag is unchanged, untouched cells keep their
value. -/
lemma drawRows_zeros (sr sc : Nat) (mem : Nat → Nat) (addr : Nat) (hsc : sc + 8 ≤ 64) :
    ∀ (rows : List Nat), (∀ r ∈ rows, sr + r ≤ 31) → rows.Pairwise (· ≠ ·) →
    (∀ r ∈ rows, addr + r < 4096) →
    ∀ (vm : Nat → Nat) (flag : Bool),
    (∀ r ∈ rows, ∀ cl, cl < 8 → 0 < mem (addr + r) >>> (7 - cl) % 2 →
        vm ((sr + r) * 64 + (sc + cl)) = 0) →
    ∃ vm', drawRowsAux sr sc mem addr rows vm flag = some (.ok (vm', flag)) ∧
      (∀ r ∈ rows, ∀ cl, cl < 8 → 0 < mem (addr + r) >>> (7 - cl) % 2 →
          vm' ((sr + r) * 64 + (sc + cl)) = 1) ∧
      (∀ j, (∀ r ∈ rows, ∀ cl, cl < 8 → 0 < mem (addr + r) >>> (7 - cl) % 2 →
          j ≠ (sr + r) * 64 + (sc + cl)) → vm' j = vm j) := by
  intro rows
  induction rows with
  | nil =>
    intro _ _ _ vm flag _
    exact ⟨vm, rfl, by simp, fun j _ => rfl⟩
  | cons r rest ih =>
    intro hrows hnd haddr vm flag hz
    have hr31 : sr + r ≤ 31 := hrows r (List.mem_cons_self _ _)
    have hmod : (sr + r) % 256 = sr + r := Nat.mod_eq_of_lt (by omega)
    obtain ⟨vm1, hrun1, hones1, hunch1⟩ :=
      drawCols_zeros (sr + r) sc (mem (addr + r)) hr31 hsc (List.range 8)
        (fun cl hcl => List.mem_range.mp hcl)
        ((List.pairwise_lt_range 8).imp Nat.ne_of_lt) vm flag
        (fun cl hcl hs => hz r (List.mem_cons_self _ _) cl (List.mem_range.mp hcl) hs)
    have step : drawRowsAux sr sc mem addr (r :: rest) vm flag =
        drawRowsAux sr sc mem addr rest vm1 flag := by
      rw [drawRowsAux]
      rw [readMem, if_pos (show addr + r < MEM_SIZE by
        simpa [MEM_SIZE] using haddr r (List.mem_cons_self _ _))]
      simp only []
      rw [hmod, hrun1]
    have hz2 : ∀ r2 ∈ rest, ∀ cl, cl < 8 → 0 < mem (addr + r2) >>> (7 - cl) % 2 →
        vm1 ((sr + r2) * 64 + (sc + cl)) = 0 := by
      intro r2 h2 cl hcl hs
      have hne : r ≠ r2 := (List.pairwise_cons.mp hnd).1 r2 h2
      have hr2 : sr + r2 ≤ 31 := hrows r2 (List.mem_cons_of_mem _ h2)
      rw [hunch1 _ ?havoid]
      case havoid =>
        intro c3 h3 _
        have h38 : c3 < 8 := List.mem_range.mp h3
        omega
      exact hz r2 (List.mem_cons_of_mem _ h2) cl hcl hs
    obtain ⟨vm', hrun, hones, hunch⟩ := ih (fun r2 h2 => hrows r2 (List.mem_cons_of_mem _ h2))
      (List.Pairwise.of_cons hnd) (fun r2 h2 => haddr r2 (List.mem_cons_of_mem _ h2))
      vm1 flag hz2
    refine ⟨vm', by rw [step, hrun], ?_, ?_⟩
    · intro r2 h2 cl hcl hs
      rcases List.mem_cons.mp h2 with h2 | h2
      · subst h2
        have hr2 : sr + r2 ≤ 31 := hr31
        rw [hunch _ ?havoid2]
        case havoid2 =>
          intro r3 h3 c3 hc3 _
          have hne : r2 ≠ r3 := (List.pairwise_cons.mp hnd).1 r3 h3
          have hr3 : sr + r3 ≤ 31 := hrows r3 (List.mem_cons_of_mem _ h3)
          omega
        exact hones1 cl (List.mem_range.mpr hcl) hs
      · exact hones r2 h2 cl hcl hs
    · intro j hj
      rw [hunch j (fun r2 h2 cl hcl hs => hj r2 (List.mem_cons_of_mem _ h2) cl hcl hs)]
      refine hunch1 j ?_
      intro cl h3 hs
      exact hj r (List.mem_cons_self _ _) cl (List.mem_range.mp h3) hs



/-- Draw-row loop over a framebuffer holding 1 under every set sprite bit:
all those cells return to 0 and the collision flag ends true iff the sprite
has any set bit. -/
lemma drawRows_ones (sr sc : Nat) (mem : Nat → Nat) (addr : Nat) (hsc : sc + 8 ≤ 64) :
    ∀ (rows : List Nat), (∀ r ∈ rows, sr + r ≤ 31) → rows.Pairwise (· ≠ ·) →
    (∀ r ∈ rows, addr + r < 4096) →
    ∀ (vm : Nat → Nat) (flag : Bool),
    (∀ r ∈ rows, ∀ cl, cl < 8 → 0 < mem (addr + r) >>> (7 - cl) % 2 →
        vm ((sr + r) * 64 + (sc + cl)) = 1) →
    ∃ vm', drawRowsAux sr sc mem addr rows vm flag = some (.ok (vm',
        flag || rows.any (fun r =>
          (List.range 8).any fun cl => decide (0 < mem (addr + r) >>> (7 - cl) % 2)))) ∧
      (∀ r ∈ rows, ∀ cl, cl < 8 → 0 < mem (addr + r) >>> (7 - cl) % 2 →
          vm' ((sr + r) * 64 + (sc + cl)) = 0) ∧
      (∀ j, (∀ r ∈ rows, ∀ cl, cl < 8 → 0 < mem (addr + r) >>> (7 - cl) % 2 →
          j ≠ (sr + r) * 64 + (sc + cl)) → vm' j = vm j) := by
  intro rows
  induction rows with
  | nil =>
    intro _ _ _ vm flag _
    exact ⟨vm, by simp [drawRowsAux], by simp, fun j _ => rfl⟩
  | cons r rest ih =>
    intro hrows hnd haddr vm flag hone
    have hr31 : sr + r ≤ 31 := hrows r (List.mem_cons_self _ _)
    have hmod : (sr + r) % 256 = sr + r := Nat.mod_eq_of_lt (by omega)
    obtain ⟨vm1, hrun1, hzeros1, hunch1⟩ :=
      drawCols_ones (sr + r) sc (mem (addr + r)) hr31 hsc (List.range 8)
        (fun cl hcl => List.mem_range.mp hcl)
        ((List.pairwise_lt_range 8).imp Nat.ne_of_lt) vm flag
        (fun cl hcl hs => hone r (List.mem_cons_self _ _) cl (List.mem_range.mp hcl) hs)
    have step : drawRowsAux sr sc mem addr (r :: rest) vm flag =
        drawRowsAux sr sc mem addr rest vm1
          (flag || (List.range 8).any fun cl => decide (0 < mem (addr + r) >>> (7 - cl) % 2)) := by
      rw [drawRowsAux]
      rw [readMem, if_pos (show addr + r < MEM_SIZE by
        simpa [MEM_SIZE] using haddr r (List.mem_cons_self _ _))]
      simp only []
      rw [hmod, hrun1]
    have hone2 : ∀ r2 ∈ rest, ∀ cl, cl < 8 → 0 < mem (addr + r2) >>> (7 - cl) % 2 →
        vm1 ((sr + r2) * 64 + (sc + cl)) = 1 := by
      intro r2 h2 cl hcl hs
      have hne : r ≠ r2 := (List.pairwise_cons.mp hnd).1 r2 h2
      have hr2 : sr + r2 ≤ 31 := hrows r2 (List.mem_cons_of_mem _ h2)
      rw [hunch1 _ ?havoid]
      case havoid =>
        intro c3 h3 _
        have h38 : c3 < 8 := List.mem_range.mp h3
        omega
      exact hone r2 (List.mem_cons_of_mem _ h2) cl hcl hs
    obtain ⟨vm', hrun, hzeros, hunch⟩ := ih (fun r2 h2 => hrows r2 (List.mem_cons_of_mem _ h2))
      (List.Pairwise.of_cons hnd) (fun r2 h2 => haddr r2 (List.mem_cons_of_mem _ h2))
      vm1 (flag || (List.range 8).any fun cl => decide (0 < mem (addr + r) >>> (7 - cl) % 2))
      hone2
    refine ⟨vm', ?_, ?_, ?_⟩
    · rw [step, hrun]
      simp [List.any_cons, Bool.or_assoc]
    · intro r2 h2 cl hcl hs
      rcases List.mem_cons.mp h2 with h2 | h2
      · subst h2
        rw [hunch _ ?havoid2]
        case havoid2 =>
          intro r3 h3 c3 hc3 _
          have hne : r2 ≠ r3 := (List.pairwise_cons.mp hnd).1 r3 h3
          have hr3 : sr + r3 ≤ 31 := hrows r3 (List.mem_cons_of_mem _ h3)
          omega
        exact hzeros1 cl (List.mem_range.mpr hcl) hs
      · exact hzeros r2 h2 cl hcl hs
    · intro j hj
      rw [hunch j (fun r2 h2 cl hcl hs => hj r2 (List.mem_cons_of_mem _ h2) cl hcl hs)]
      refine hunch1 j ?_
      intro cl h3 hs
      exact hj r (List.mem_cons_self _ _) cl (List.mem_range.mp h3) hs



/-- A byte with a nonzero low 8 bits has a set bit among bits 7..0, i.e.
among the columns the draw instruction examines. -/
lemma byte_has_bit {rd : Nat} (h : rd % 256 ≠ 0) :
    ∃ cl, cl < 8 ∧ 0 < rd >>> (7 - cl) % 2 := by
  by_contra hno
  push_neg at hno
  have e : ∀ k : Nat, rd >>> k = rd / 2 ^ k := fun k => Nat.shiftRight_eq_div_pow rd k
  have h0 := hno 0 (by norm_num)
  have h1 := hno 1 (by norm_num)
  have h2 := hno 2 (by norm_num)
  have h3 := hno 3 (by norm_num)
  have h4 := hno 4 (by norm_num)
  have h5 := hno 5 (by norm_num)
  have h6 := hno 6 (by norm_num)
  have h7 := hno 7 (by norm_num)
  rw [show 7 - 0 = 7 from rfl, e 7] at h0
  rw [show 7 - 1 = 6 from rfl, e 6] at h1
  rw [show 7 - 2 = 5 from rfl, e 5] at h2
  rw [show 7 - 3 = 4 from rfl, e 4] at h3
  rw [show 7 - 4 = 3 from rfl, e 3] at h4
  rw [show 7 - 5 = 2 from rfl, e 2] at h5
  rw [show 7 - 6 = 1 from rfl, e 1] at h6
  rw [show 7 - 7 = 0 from rfl, e 0] at h7
  norm_num at h0 h1 h2 h3 h4 h5 h6 h7
  omega



set_option maxHeartbeats 1000000 in
/-- C8: clearing the framebuffer (`0,0,E,0`), drawing an 8×n sprite with at
least one set bit wholly inside the framebuffer (`D,x,y,n` with
start column + 8 ≤ 64 and start row + n ≤ 32), then drawing the identical
sprite at the identical position again leaves every framebuffer cell at 0
(XOR is self-inverse) and leaves register 15 = 1 (every on-cell was turned
off by the second draw).  x ≠ 15 and y ≠ 15 keep the draw's flag write from
changing the sprite position between the two draws. -/
theorem c8_clear_draw_draw_cancels (rnd0 rnd1 rnd2 : Nat) (c : Chip) (x y n : Nat)
    (hx : x < 16) (hy : y < 16) (hn : n < 16) (hx15 : x ≠ 15) (hy15 : y ≠ 15)
    (haddr : c.addr_reg + n ≤ 4096)
    (hrow : c.data_regs y + n ≤ 32)
    (hcol : c.data_regs x + 8 ≤ 64)
    (hbit : ∃ r, r < n ∧ c.memory (c.addr_reg + r) % 256 ≠ 0) :
    ∃ c0 c1 c2,
      exec rnd0 c 0x00E0 = some (c0, none) ∧
      exec rnd1 c0 (0xD000 + x * 256 + y * 16 + n) = some (c1, none) ∧
      exec rnd2 c1 (0xD000 + x * 256 + y * 16 + n) = some (c2, none) ∧
      (∀ j, c2.video_memory j = 0) ∧
      c2.data_regs 15 = 1 := by
  have hD : (0xD000 : Nat) = 13 * 4096 := by norm_num
  rw [hD]
  obtain ⟨ha, hb, hn2, hd⟩ := nibbles_digits 13 x y n (by norm_num) hx hy hn
  -- the clear instruction
  refine ⟨{ c with video_memory := fun _ => 0 }, ?_⟩
  have hclear : exec rnd0 c 0x00E0 = some ({ c with video_memory := fun _ => 0 }, none) := rfl
  -- first draw, over the zeroed framebuffer
  obtain ⟨vm1, hrun1, hones1, hunch1⟩ :=
    drawRows_zeros (c.data_regs y) (c.data_regs x) c.memory c.addr_reg hcol
      (List.range n) (fun r hr => by
        have := List.mem_range.mp hr
        omega)
      ((List.pairwise_lt_range n).imp Nat.ne_of_lt)
      (fun r hr => by
        have := List.mem_range.mp hr
        omega)
      (fun _ => 0) false (fun r hr cl hcl hs => rfl)
  have hdraw1 : exec rnd1 { c with video_memory := fun _ => 0 } (13 * 4096 + x * 256 + y * 16 + n) =
      some ({ c with video_memory := vm1, data_regs := upd c.data_regs 15 0 }, none) := by
    simp only [exec, ha, hb, hn2, hd]
    norm_num
    rw [hrun1]
    rfl
  -- second draw, over the cells set by the first
  have hone2 : ∀ r ∈ List.range n, ∀ cl, cl < 8 →
      0 < c.memory (c.addr_reg + r) >>> (7 - cl) % 2 →
      vm1 ((c.data_regs y + r) * 64 + (c.data_regs x + cl)) = 1 :=
    fun r hr cl hcl hs => hones1 r hr cl hcl hs
  obtain ⟨vm2, hrun2, hzeros2, hunch2⟩ :=
    drawRows_ones (c.data_regs y) (c.data_regs x) c.memory c.addr_reg hcol
      (List.range n) (fun r hr => by
        have := List.mem_range.mp hr
        omega)
      ((List.pairwise_lt_range n).imp Nat.ne_of_lt)
      (fun r hr => by
        have := List.mem_range.mp hr
        omega)
      vm1 false hone2
  have hany : ((List.range n).any fun r =>
      (List.range 8).any fun cl =>
        decide (0 < c.memory (c.addr_reg + r) >>> (7 - cl) % 2)) = true := by
    obtain ⟨r0, hr0, hbyte⟩ := hbit
    obtain ⟨cl0, hcl0, hbit0⟩ := byte_has_bit hbyte
    rw [List.any_eq_true]
    refine ⟨r0, List.mem_range.mpr hr0, ?_⟩
    rw [List.any_eq_true]
    exact ⟨cl0, List.mem_range.mpr hcl0, decide_eq_true hbit0⟩
  have hdraw2 : exec rnd2 { c with video_memory := vm1, data_regs := upd c.data_regs 15 0 } (13 * 4096 + x * 256 + y * 16 + n) = some ({ c with video_memory := vm2, data_regs := upd (upd c.data_regs 15 0) 15 1 }, none) := by
    simp only [exec, ha, hb, hn2, hd]
    norm_num
    rw [upd_other _ _ _ _ hy15, upd_other _ _ _ _ hx15, hrun2, hany]
    rfl
  refine ⟨_, _, hclear, hdraw1, hdraw2, ?_, ?_⟩
  case refine_2 =>
    show upd (upd c.data_regs 15 0) 15 1 15 = 1
    exact upd_same _ _ _
  -- every framebuffer cell is back at zero
  intro j
  show vm2 j = 0
  by_cases hj : ∃ r, r ∈ List.range n ∧ ∃ cl, cl < 8 ∧
      0 < c.memory (c.addr_reg + r) >>> (7 - cl) % 2 ∧
      j = (c.data_regs y + r) * 64 + (c.data_regs x + cl)
  · obtain ⟨r, hr, cl, hcl, hs, hjeq⟩ := hj
    rw [hjeq]
    exact hzeros2 r hr cl hcl hs
  · push_neg at hj
    rw [hunch2 j (fun r hr cl hcl hs => hj r hr cl hcl hs)]
    rw [hunch1 j (fun r hr cl hcl hs => hj r hr cl hcl hs)]


end Chip8

namespace Chip8

/-- Chip for the C8 witness: one-byte sprite 0x80 at address 0, drawn at
position (0, 0). -/
def c8w_chip : Chip := { Chip.default with memory := upd zmem 0 0x80 }

/-- C8 witnessed: on `c8w_chip`, clear, draw `D,0,1,1`, draw again: the
framebuffer is all zero afterwards and register 15 is 1. -/
theorem c8_clear_draw_draw_cancels_w :
    ∃ c0 c1 c2,
      exec 0 c8w_chip 0x00E0 = some (c0, none) ∧
      exec 0 c0 0xD011 = some (c1, none) ∧
      exec 0 c1 0xD011 = some (c2, none) ∧
      (∀ j, c2.video_memory j = 0) ∧
      c2.data_regs 15 = 1 :=
  c8_clear_draw_draw_cancels 0 0 0 c8w_chip 0 1 1 (by decide) (by decide) (by decide)
    (by decide) (by decide) (by decide) (by decide) (by decide)
    ⟨0, by decide, by decide⟩

end Chip8
